import Mathlib

/-!
Shallow embedding of the option-parsing core of the `cleo` parser package
(`src/cleo/parser/optparser.py`, `errors.py`, `formatters.py`) and proofs of
the specification claims about it.

Python strings are embedded as Lean `String`; every operation the source uses
(slicing, lowercasing, splitting, comparison) is reimplemented over the
underlying character list so that all definitions evaluate inside the kernel.
Python dictionaries (which preserve insertion order) are embedded as
association lists with insertion-order-preserving update (`dset`), first-hit
lookup (`dget`) and key deletion (`derase`).
-/

namespace Cleo

/-! ## String utilities (Python string primitives over character lists) -/

/-- Python slicing `s[:n]`. -/
def strTake (s : String) (n : Nat) : String := String.mk (s.data.take n)

/-- Python slicing `s[n:]`. -/
def strDrop (s : String) (n : Nat) : String := String.mk (s.data.drop n)

/-- Python `len(s)` (code points, as in Python). -/
def strLen (s : String) : Nat := s.data.length

/-- ASCII lowercasing of one character, as used on the `0x`/`0b` radix markers. -/
def charLower (c : Char) : Char :=
  if 'A' ≤ c ∧ c ≤ 'Z' then Char.ofNat (c.toNat + 32) else c

/-- Python `s.lower()` (ASCII fragment; the source only lowercases `s[:2]`
before comparing against the ASCII literals "0x" and "0b"). -/
def strLower (s : String) : String := String.mk (s.data.map charLower)

/-- Python `t.startswith(s)`: is `s` a leading slice of `t`? -/
def strStarts (t s : String) : Bool := s.data.isPrefixOf t.data

/-- Python `"=" in s`. -/
def strHasChar (s : String) (c : Char) : Bool := s.data.contains c

/-- Python `s.split(c, 1)` when `c` occurs in `s`: the part before the first
occurrence of `c` and the part after it. -/
def splitOnceAux (c : Char) : List Char → Option (List Char × List Char)
  | [] => none
  | x :: xs =>
    if x = c then some ([], xs)
    else (splitOnceAux c xs).map (fun p => (x :: p.1, p.2))

/-- Python `s.split(c, 1)` returning `none` when `c` does not occur. -/
def splitOnce (s : String) (c : Char) : Option (String × String) :=
  (splitOnceAux c s.data).map (fun p => (String.mk p.1, String.mk p.2))

/-- Python `sep.join(parts)`. -/
def joinSep (sep : String) : List String → String
  | [] => ""
  | [x] => x
  | x :: xs => x ++ sep ++ joinSep sep xs

/-- Python `repr` of a string as it appears in error messages (quotes,
ignoring escape processing which never triggers on the claims' inputs). -/
def pyRepr (s : String) : String := "\x27" ++ s ++ "\x27"

/-- A run of `n` spaces, Python `"%*s" % (n, "")`. -/
def spaces (n : Nat) : String := String.mk (List.replicate n ' ')

/-- Python `"%-*s" % (w, s)`: left-justify `s` in a field of width `w`. -/
def padRight (s : String) (w : Nat) : String := s ++ spaces (w - strLen s)

/-- Python string `<` on two character lists: strict lexicographic comparison
by code point. -/
def pyLexLt : List Char → List Char → Bool
  | _, [] => false
  | [], _ :: _ => true
  | a :: as, b :: bs => decide (a.toNat < b.toNat) || (a = b && pyLexLt as bs)

/-- Python string `<=`, the order used by `list.sort()` on strings. -/
def pyStrLe (a b : String) : Bool := a = b || pyLexLt a.data b.data

/-- Stable insertion of a string into an ascending list (helper for the
embedding of Python `list.sort()`). -/
def pyInsert (x : String) : List String → List String
  | [] => [x]
  | y :: ys => if pyStrLe x y then x :: y :: ys else y :: pyInsert x ys

/-- Embedding of Python `list.sort()` on lists of strings: ascending stable
sort by code-point lexicographic order. -/
def pySort : List String → List String
  | [] => []
  | x :: xs => pyInsert x (pySort xs)

/-! ## Python values

The dynamic values stored into a `Values` record by option actions. A float
or complex result of a successful conversion is represented by the validated
source string: the claims only concern which strings convert successfully and
which radix/grammar is applied, never floating-point arithmetic. -/

inductive PyVal where
  | none
  | bool (b : Bool)
  | int (n : Int)
  | str (s : String)
  | floatv (s : String)
  | complexv (s : String)
  | tuple (l : List PyVal)
  | list (l : List PyVal)
deriving Repr

/-! ## Ordered association lists (Python `dict`) -/

/-- Python `d[k]` / `d.get(k)`: first entry with the given key. -/
def dget [DecidableEq κ] : List (κ × α) → κ → Option α
  | [], _ => Option.none
  | (k0, v) :: t, k => if k0 = k then some v else dget t k

/-- Python `d[k] = v`: overwrite in place if the key exists (preserving its
position, as `dict` does), else append. -/
def dset [DecidableEq κ] : List (κ × α) → κ → α → List (κ × α)
  | [], k, v => [(k, v)]
  | (k0, v0) :: t, k, v => if k0 = k then (k, v) :: t else (k0, v0) :: dset t k v

/-- Python `del d[k]` (removal of the first entry with the key; a no-op when
the key is absent, which never happens on the states the theorems visit). -/
def derase [DecidableEq κ] : List (κ × α) → κ → List (κ × α)
  | [], _ => []
  | (k0, v0) :: t, k => if k0 = k then t else (k0, v0) :: derase t k

/-- Keys of an association list. -/
def dkeys (l : List (κ × α)) : List κ := l.map Prod.fst

/-! ## Numeric conversion

`_parse_num` (optparser.py) dispatches on the `0x` / `0b` / leading-`0`
markers and hands the string to Python's builtin `int(val, radix)`; the
`float` and `complex` entries of `_builtin_cvt` call the builtins directly.
The builtins are outside `src/`, so their string grammars are modelled here
from Python's documented behaviour (whitespace trimming and underscore
digit-group separators are not modelled; no claim input uses them). -/

/-- Value of one digit character in the given radix, if valid. -/
def digitVal (radix : Nat) (c : Char) : Option Nat :=
  let v : Option Nat :=
    if '0' ≤ c ∧ c ≤ '9' then some (c.toNat - 48)
    else if 'a' ≤ c ∧ c ≤ 'z' then some (c.toNat - 87)
    else if 'A' ≤ c ∧ c ≤ 'Z' then some (c.toNat - 55)
    else Option.none
  match v with
  | some n => if n < radix then some n else Option.none
  | Option.none => Option.none

/-- Accumulating digit-sequence evaluation. -/
def digitsValAux (radix : Nat) : Nat → List Char → Option Nat
  | acc, [] => some acc
  | acc, c :: cs =>
    match digitVal radix c with
    | some d => digitsValAux radix (acc * radix + d) cs
    | Option.none => Option.none

/-- Value of a non-empty valid digit sequence in the given radix. -/
def digitsVal (radix : Nat) (cs : List Char) : Option Nat :=
  if cs.isEmpty then Option.none else digitsValAux radix 0 cs

/-- Strip the optional radix marker that `int(str, base)` accepts for bases
2, 8 and 16 (for example `int("0x10", 16) = 16`). -/
def stripRadixMark (radix : Nat) (cs : List Char) : List Char :=
  match cs with
  | '0' :: x :: rest =>
    if radix = 16 ∧ (x = 'x' ∨ x = 'X') then rest
    else if radix = 2 ∧ (x = 'b' ∨ x = 'B') then rest
    else if radix = 8 ∧ (x = 'o' ∨ x = 'O') then rest
    else cs
  | _ => cs

/-- Modelled from Python's builtin `int(str, base)` (this builtin is not part
of `src/`): optional sign, optional matching radix marker, then a non-empty
digit sequence valid in the base; `none` is the `ValueError` outcome. -/
def pyIntOfString (s : String) (radix : Nat) : Option Int :=
  match s.data with
  | '+' :: rest => (digitsVal radix (stripRadixMark radix rest)).map (fun n => (n : Int))
  | '-' :: rest => (digitsVal radix (stripRadixMark radix rest)).map (fun n => -(n : Int))
  | cs => (digitsVal radix (stripRadixMark radix cs)).map (fun n => (n : Int))

/-- Embedding of `_parse_num` composed with `int` (source `_parse_int`):
choose the radix from the `0x` / `0b` / leading-`0` markers, stripping a `0b`
marker first (an empty remainder converting as `"0"`). Only the `int` and
`long` types reach this function in the source. -/
def _parse_num (val : String) : Option Int :=
  if strLower (strTake val 2) = "0x" then pyIntOfString val 16
  else if strLower (strTake val 2) = "0b" then
    pyIntOfString (if strDrop val 2 = "" then "0" else strDrop val 2) 2
  else if strTake val 1 = "0" then pyIntOfString val 8
  else pyIntOfString val 10

/-- Non-empty all-digit character run. -/
def digits1 (cs : List Char) : Bool := !cs.isEmpty && cs.all (·.isDigit)

/-- Split a character list at the first character satisfying `p`. -/
def splitOncePAux (p : Char → Bool) : List Char → Option (List Char × List Char)
  | [] => Option.none
  | x :: xs =>
    if p x then some ([], xs)
    else (splitOncePAux p xs).map (fun q => (x :: q.1, q.2))

/-- Mantissa of a float literal: `digits`, `digits.`, `digits.digits` or
`.digits`. -/
def mantissaOK (cs : List Char) : Bool :=
  match splitOncePAux (fun c => c = '.') cs with
  | Option.none => digits1 cs
  | some (a, b) =>
    if a.isEmpty then digits1 b
    else digits1 a && (b.isEmpty || b.all (·.isDigit))

/-- Exponent part after `e`/`E`: optional sign then digits. -/
def expPartOK (cs : List Char) : Bool :=
  match cs with
  | '+' :: rest => digits1 rest
  | '-' :: rest => digits1 rest
  | _ => digits1 cs

/-- Numeric body of a float literal, with optional exponent. -/
def floatBody (cs : List Char) : Bool :=
  match splitOncePAux (fun c => c = 'e' || c = 'E') cs with
  | Option.none => mantissaOK cs
  | some (m, e) => mantissaOK m && expPartOK e

/-- The `inf` / `infinity` / `nan` words accepted by `float`. -/
def floatWordOK (cs : List Char) : Bool :=
  let l := String.mk (cs.map charLower)
  l = "inf" || l = "infinity" || l = "nan"

/-- Unsigned float literal. -/
def floatUnsignedOK (cs : List Char) : Bool := floatBody cs || floatWordOK cs

/-- Optionally signed float literal. -/
def signedFloatOK (cs : List Char) : Bool :=
  match cs with
  | '+' :: rest => floatUnsignedOK rest
  | '-' :: rest => floatUnsignedOK rest
  | _ => floatUnsignedOK cs

/-- Modelled from Python's builtin `float(str)` (not part of `src/`): an
optionally signed decimal literal or infinity/nan word. In particular the
radix markers `0x` / `0b` and octal forms are not part of this grammar. -/
def pyFloatAccepts (s : String) : Bool := signedFloatOK s.data

/-- Last `+`/`-` in the list that is neither leading nor exponent-internal
(previous character `e`/`E`); used to split `a±bj` complex literals. -/
def lastSignSplitAux : Option Char → List Char → Option (List Char × Char × List Char)
  | _, [] => Option.none
  | prev, c :: rest =>
    match lastSignSplitAux (some c) rest with
    | some (b, sg, a) => some (c :: b, sg, a)
    | Option.none =>
      if (c = '+' || c = '-') &&
          (match prev with
           | some p => !(p = 'e' || p = 'E')
           | Option.none => false) then some ([], c, rest)
      else Option.none

/-- Body of a complex literal (parentheses already stripped). -/
def complexCoreOK (cs : List Char) : Bool :=
  match cs.getLast? with
  | some c =>
    if c = 'j' ∨ c = 'J' then
      let body := cs.dropLast
      match lastSignSplitAux Option.none body with
      | some (re, _, im) => signedFloatOK re && (im.isEmpty || floatUnsignedOK im)
      | Option.none =>
        body.isEmpty || body = ['+'] || body = ['-'] || signedFloatOK body
    else signedFloatOK cs
  | Option.none => false

/-- Modelled from Python's builtin `complex(str)` (not part of `src/`):
`a`, `bj`, `a±bj` with float components, optionally parenthesised. As with
`float`, no radix markers are part of this grammar. -/
def pyComplexAccepts (s : String) : Bool :=
  match s.data with
  | '(' :: rest =>
    match rest.getLast? with
    | some ')' => complexCoreOK rest.dropLast
    | _ => false
  | cs => complexCoreOK cs

/-! ## The Option model (class `Option`, optparser.py) -/

/-- The action enumeration (`Option.ACTIONS`). The `callback` action carries
an arbitrary Python function and is outside this embedding; no claim
involves it. -/
inductive OptAction where
  | store
  | store_const
  | store_true
  | store_false
  | append
  | append_const
  | count
  | help
  | version
deriving DecidableEq, Repr

/-- The value-type enumeration (`Option.TYPES`). -/
inductive PType where
  | string
  | int
  | long
  | float
  | complex
  | choice
deriving DecidableEq, Repr

/-- One declared option, after the constructor's `_check_*` normalisation
has run (so `nargs` is populated for typed actions, `dest` is populated for
storing actions, and the option strings are already split into the short and
long lists by `_set_opt_strings`). `default := none` is the `NO_DEFAULT`
sentinel; a supplied Python `None` default is `some PyVal.none`. -/
structure POption where
  shortOpts : List String
  longOpts : List String
  action : OptAction := .store
  type : Option PType := Option.none
  dest : Option String := Option.none
  default : Option PyVal := Option.none
  nargs : Nat := 1
  const : PyVal := .none
  choices : List String := []
  help : Option String := Option.none
  metavar : Option String := Option.none
deriving Repr

/-- `Option.takes_value()`: the option consumes a value iff it has a type. -/
def takes_value (o : POption) : Bool := o.type.isSome

/-- `Option.get_opt_string()`: first long string, else first short string. -/
def get_opt_string (o : POption) : String :=
  match o.longOpts with
  | l :: _ => l
  | [] => o.shortOpts.headD ""

/-! ## Errors and the `Values` record -/

/-- Non-local outcomes raised or triggered while parsing. `badOption`,
`ambiguousOption` (refining `BadOptionError`) and `optionValue` are the
exception classes of `errors.py`; `errorCall` is a direct `self.error(...)`
call (which prints usage and exits with status 2); `exitProg` is the
`parser.exit()` of the help/version actions; `typeError` stands for Python
runtime errors that none of the claims' executions reach; `outOfFuel` is the
embedding's marker for loop iterations beyond the supplied fuel (unreachable
when every option's `nargs` is at least 1). -/
inductive ParseErr where
  | badOption (optStr : String)
  | ambiguousOption (optStr : String) (possibilities : List String)
  | optionValue (msg : String)
  | errorCall (msg : String)
  | exitProg (status : Nat)
  | typeError (msg : String)
  | outOfFuel
deriving DecidableEq, Repr

/-- `str(err)` for the exception classes of `errors.py`. -/
def errMessage : ParseErr → String
  | .badOption s => "no such option: " ++ s
  | .ambiguousOption s poss => "ambiguous option: " ++ s ++ " (" ++ joinSep ", " poss ++ "?)"
  | .optionValue m => m
  | .errorCall m => m
  | .typeError m => m
  | .exitProg _ => ""
  | .outOfFuel => ""

/-- The `Values` record: an open attribute bag, embedded as an ordered
association list (Python objects keep attribute insertion order in
`__dict__`, which `Values.__eq__` compares). -/
def Values := List (String × PyVal)

/-- `Values.ensure_value(attr, value)`: install `value` if the attribute is
absent or `None`, and return the (possibly updated) record together with the
resulting attribute value. -/
def ensure_value (vals : Values) (attr : String) (value : PyVal) : Values × PyVal :=
  match dget vals attr with
  | Option.none => (dset vals attr value, value)
  | some .none => (dset vals attr value, value)
  | some cur => (vals, cur)

/-! ## Value checking (`check_builtin`, `check_choice`, `Option.check_value`,
`Option.convert_value`, `Option.take_action`) -/

/-- `check_builtin`: convert by the `_builtin_cvt` entry for the option's
type; a `ValueError` becomes an `OptionValueError` naming the expected kind
and the offending value. Note that only `int` and `long` go through
`_parse_num`; `float` and `complex` call the builtins directly. -/
def check_builtin (t : PType) (opt : String) (value : String) : Except ParseErr PyVal :=
  match t with
  | .int | .long =>
    match _parse_num value with
    | some n => .ok (.int n)
    | Option.none =>
      .error (.optionValue ("option " ++ opt ++ ": invalid integer value: " ++ pyRepr value))
  | .float =>
    if pyFloatAccepts value then .ok (.floatv value)
    else
      .error (.optionValue
        ("option " ++ opt ++ ": invalid floating-point value: " ++ pyRepr value))
  | .complex =>
    if pyComplexAccepts value then .ok (.complexv value)
    else
      .error (.optionValue ("option " ++ opt ++ ": invalid complex value: " ++ pyRepr value))
  | _ => .error (.typeError "KeyError: _builtin_cvt")

/-- `check_choice`: membership in the declared choices. -/
def check_choice (choices : List String) (opt : String) (value : String) :
    Except ParseErr PyVal :=
  if choices.contains value then .ok (.str value)
  else
    .error (.optionValue
      ("option " ++ opt ++ ": invalid choice: " ++ pyRepr value ++
        " (choose from " ++ joinSep ", " (choices.map pyRepr) ++ ")"))

/-- `Option.check_value`: dispatch through `TYPE_CHECKER`; types without a
checker (no type, or type `string`) pass the value through unchanged. -/
def check_value (o : POption) (opt : String) (value : String) : Except ParseErr PyVal :=
  match o.type with
  | Option.none => .ok (.str value)
  | some .string => .ok (.str value)
  | some .choice => check_choice o.choices opt value
  | some t => check_builtin t opt value

/-- The raw value handed to `Option.process` by the argument processor:
`None`, one token (`nargs == 1`), or a tuple of tokens (`nargs > 1`). -/
inductive RawVal where
  | none
  | str (s : String)
  | tup (l : List String)
deriving DecidableEq, Repr

/-- `Option.convert_value`: check a scalar directly, a tuple elementwise. -/
def convert_value (o : POption) (opt : String) (value : RawVal) : Except ParseErr PyVal :=
  match value with
  | .none => .ok .none
  | .str s =>
    if o.nargs = 1 then check_value o opt s
    else .error (.typeError "scalar value with nargs roll")
  | .tup l => do
    let vs ← l.mapM (check_value o opt)
    .ok (.tuple vs)

/-- `Option.take_action`: mutate the `Values` record according to the action.
The `help`/`version` actions print and terminate the process with status 0;
the `callback` action (arbitrary Python function) is outside the embedding. -/
def take_action (action : OptAction) (dest : Option String) (const : PyVal)
    (value : PyVal) (values : Values) : Except ParseErr Values :=
  match action, dest with
  | .store, some d => .ok (dset values d value)
  | .store_const, some d => .ok (dset values d const)
  | .store_true, some d => .ok (dset values d (.bool true))
  | .store_false, some d => .ok (dset values d (.bool false))
  | .append, some d =>
    match ensure_value values d (.list []) with
    | (vals, .list l) => .ok (dset vals d (.list (l ++ [value])))
    | _ => .error (.typeError "append to non-list")
  | .append_const, some d =>
    match ensure_value values d (.list []) with
    | (vals, .list l) => .ok (dset vals d (.list (l ++ [const])))
    | _ => .error (.typeError "append to non-list")
  | .count, some d =>
    match ensure_value values d (.int 0) with
    | (vals, .int n) => .ok (dset vals d (.int (n + 1)))
    | _ => .error (.typeError "count on non-int")
  | .help, _ => .error (.exitProg 0)
  | .version, _ => .error (.exitProg 0)
  | _, Option.none => .error (.typeError "setattr with dest None")

/-- `Option.process`: convert the raw value, then take the action. -/
def opt_process (o : POption) (opt : String) (value : RawVal) (values : Values) :
    Except ParseErr Values := do
  let v ← convert_value o opt value
  take_action o.action o.dest o.const v values

/-! ## Abbreviation resolution (`_match_abbrev`) -/

/-- `_match_abbrev(s, wordmap)`: `wordmap` is passed as its key list in
insertion order (Python `dict` iteration order). A pure function of its two
arguments: exact match wins; otherwise the unique completion, a
`BadOptionError` for no completion, or an `AmbiguousOptionError` carrying
the sorted completions. -/
def _match_abbrev (s : String) (wordmap : List String) : Except ParseErr String :=
  if wordmap.contains s then .ok s
  else
    let possibilities := wordmap.filter (fun word => strStarts word s)
    if possibilities.length = 1 then .ok (possibilities.headD "")
    else if possibilities.isEmpty then .error (.badOption s)
    else .error (.ambiguousOption s (pySort possibilities))

/-! ## The parser (class `OptionParser`) as seen by `parse_args`

`_short_opt` and `_long_opt` are the shared lookup tables (string to
option); `defaults` maps destination keys to default values. These tables
are built by `add_option`; `pparser_add` below reproduces its table and
default updates for conflict-free registrations, which is how every parser
used in the parsing claims is constructed (the full conflict machinery is
embedded separately for the registration claims). -/

structure PParser where
  option_list : List POption := []
  groupLists : List (List POption) := []
  shortTable : List (String × POption) := []
  longTable : List (String × POption) := []
  defaults : List (String × PyVal) := []
  allow_interspersed_args : Bool := true
  process_default_values : Bool := true

/-- The table/default updates of `OptionContainer.add_option` for an option
that conflicts with nothing already registered. -/
def pparser_add (p : PParser) (o : POption) : PParser :=
  { p with
    option_list := p.option_list ++ [o],
    shortTable := o.shortOpts.foldl (fun t s => dset t s o) p.shortTable,
    longTable := o.longOpts.foldl (fun t s => dset t s o) p.longTable,
    defaults :=
      match o.dest with
      | Option.none => p.defaults
      | some d =>
        match o.default with
        | some v => dset p.defaults d v
        | Option.none =>
          if (dget p.defaults d).isNone then dset p.defaults d PyVal.none
          else p.defaults }

/-- `OptionParser._get_all_options()`: direct options then group options. -/
def get_all_options (p : PParser) : List POption :=
  p.option_list ++ p.groupLists.flatten

/-- `OptionParser.get_default_values()`: seed a `Values` from the default
table; when `process_default_values` is on, pass every default that is
currently a plain string through its option's `check_value` (failures raise
`OptionValueError` out of this function — it runs before the `try` block of
`parse_args`). -/
def get_default_values (p : PParser) : Except ParseErr Values :=
  if !p.process_default_values then .ok p.defaults
  else do
    let defaults ← (get_all_options p).foldlM
      (fun (defs : List (String × PyVal)) o =>
        match o.dest with
        | Option.none => pure defs
        | some d =>
          match dget defs d with
          | some (.str sdef) => do
            let v ← check_value o (get_opt_string o) sdef
            pure (dset defs d v)
          | _ => pure defs)
      p.defaults
    .ok defaults

/-- `OptionParser._match_long_opt`: resolve against the long table's keys. -/
def _match_long_opt (p : PParser) (opt : String) : Except ParseErr String :=
  _match_abbrev opt (dkeys p.longTable)

/-- `OptionParser._process_long_opt`: pop the argument, splice an
`=`-attached value back into the stream, resolve the (possibly abbreviated)
name, then consume `nargs` value tokens or reject an explicit value. -/
def _process_long_opt (p : PParser) (rargs : List String) (values : Values) :
    Except ParseErr (List String × Values) :=
  match rargs with
  | [] => .error (.typeError "pop from empty list")
  | arg :: rest =>
    let (opt0, rargs1, had_explicit_value) :=
      if strHasChar arg '=' then
        match splitOnce arg '=' with
        | some (o, next_arg) => (o, next_arg :: rest, true)
        | Option.none => (arg, rest, false)
      else (arg, rest, false)
    match _match_long_opt p opt0 with
    | .error e => .error e
    | .ok opt =>
      match dget p.longTable opt with
      | Option.none => .error (.typeError "KeyError: _long_opt")
      | some option =>
        if takes_value option then
          let nargs := option.nargs
          if rargs1.length < nargs then
            .error (.errorCall (opt ++ " option requires " ++ toString nargs ++
              " argument" ++ (if nargs > 1 then "s" else "")))
          else if nargs = 1 then
            match rargs1 with
            | v :: rest2 => (opt_process option opt (.str v) values).map (fun vs => (rest2, vs))
            | [] => .error (.typeError "pop from empty list")
          else
            (opt_process option opt (.tup (rargs1.take nargs)) values).map
              (fun vs => (rargs1.drop nargs, vs))
        else if had_explicit_value then
          .error (.errorCall (opt ++ " option does not take a value"))
        else
          (opt_process option opt .none values).map (fun vs => (rargs1, vs))

/-- The character walk of `_process_short_opts`. The source tracks a counter
`i` (incremented past the current character) and tests `i < len(arg)` with
remainder `arg[i:]`; here the characters still to walk are carried directly,
so that test is "the remaining character list is non-empty" and the
remainder is that list as a string. -/
def shortLoop (p : PParser) : List Char → List String → Values →
    Except ParseErr (List String × Values)
  | [], rargs, values => .ok (rargs, values)
  | ch :: restChars, rargs, values =>
    let opt := String.mk ['-', ch]
    match dget p.shortTable opt with
    | Option.none => .error (.badOption opt)
    | some option =>
      if takes_value option then
        let stop := !restChars.isEmpty
        let rargs1 := if stop then String.mk restChars :: rargs else rargs
        let nargs := option.nargs
        if rargs1.length < nargs then
          .error (.errorCall (opt ++ " option requires " ++ toString nargs ++
            " argument" ++ (if nargs = 1 then "" else "s")))
        else
          let value : RawVal :=
            if nargs = 1 then .str (rargs1.headD "") else .tup (rargs1.take nargs)
          let rargs2 := if nargs = 1 then rargs1.drop 1 else rargs1.drop nargs
          match opt_process option opt value values with
          | .error e => .error e
          | .ok vals =>
            if stop then .ok (rargs2, vals)
            else shortLoop p restChars rargs2 vals
      else
        match opt_process option opt .none values with
        | .error e => .error e
        | .ok vals => shortLoop p restChars rargs vals

/-- `OptionParser._process_short_opts`: pop the cluster token and walk its
characters after the leading `-`. -/
def _process_short_opts (p : PParser) (rargs : List String) (values : Values) :
    Except ParseErr (List String × Values) :=
  match rargs with
  | [] => .error (.typeError "pop from empty list")
  | arg :: rest => shortLoop p (arg.data.drop 1) rest values

/-- `OptionParser._process_args`: the classification loop. Returns the final
`(largs, rargs, values)`. The fuel argument bounds loop iterations; each
source iteration strictly shrinks `rargs` whenever every option's `nargs` is
at least 1 (for a pathological `nargs = 0` option the source loop itself can
run forever), so `parse_args` supplies `length + 1`. -/
def _process_args (p : PParser) :
    Nat → List String → List String → Values →
    Except ParseErr (List String × List String × Values)
  | 0, _, _, _ => .error .outOfFuel
  | _ + 1, largs, [], values => .ok (largs, [], values)
  | fuel + 1, largs, arg :: rest, values =>
    if arg = "--" then .ok (largs, rest, values)
    else if strTake arg 2 = "--" then
      match _process_long_opt p (arg :: rest) values with
      | .error e => .error e
      | .ok (rargs2, vals) => _process_args p fuel largs rargs2 vals
    else if strTake arg 1 = "-" && strLen arg > 1 then
      match _process_short_opts p (arg :: rest) values with
      | .error e => .error e
      | .ok (rargs2, vals) => _process_args p fuel largs rargs2 vals
    else if p.allow_interspersed_args then
      _process_args p fuel (largs ++ [arg]) rest values
    else .ok (largs, arg :: rest, values)

/-- Outcome of a full `parse_args` call, as observed by the caller:
successful return, process termination (via `self.error`, status 2, or the
help/version `exit`, status 0), or an exception propagating raw. -/
inductive ParseOutcome where
  | ok (values : Values) (leftover : List String)
  | exited (status : Nat) (msg : String)
  | raised (e : ParseErr)

/-- `OptionParser.check_values`: the default implementation returns its
arguments unchanged. -/
def check_values (values : Values) (args : List String) : Values × List String :=
  (values, args)

/-- `OptionParser.parse_args`. `argv` stands for `sys.argv[1:]`, used when
the supplied token list is empty (Python `args or sys.argv[1:]`). The
default-value materialisation runs before the `try` block; only
`BadOptionError` and `OptionValueError` raised by `_process_args` are caught
and routed through `self.error` (usage text on stderr, exit status 2). -/
def parse_args (p : PParser) (argv : List String) (args : List String)
    (values0 : Option Values) : ParseOutcome :=
  let rargs := if args.isEmpty then argv else args
  let valuesE : Except ParseErr Values :=
    match values0 with
    | some v => .ok v
    | Option.none => get_default_values p
  match valuesE with
  | .error e => .raised e
  | .ok values =>
    match _process_args p (rargs.length + 1) [] rargs values with
    | .ok (largs, rargs2, vals) =>
      let (v, a) := check_values vals (largs ++ rargs2)
      .ok v a
    | .error (.badOption s) => .exited 2 (errMessage (.badOption s))
    | .error (.ambiguousOption s poss) => .exited 2 (errMessage (.ambiguousOption s poss))
    | .error (.optionValue m) => .exited 2 m
    | .error (.errorCall m) => .exited 2 m
    | .error (.exitProg st) => .exited st ""
    | .error e => .raised e

/-! ## Registration model (`OptionContainer.add_option` / `_check_conflict` /
`remove_option`, `OptionParser.add_option_group`)

For the conflict and lookup-table claims option identity matters (the
tables alias the very objects held in the containers' option lists), so
options are registered under numeric identities. Containers are numbered
too: container 0 is the parser, further numbers are groups created by
`add_option_group`; all containers share the parser's three tables, exactly
as `_share_option_mappings` arranges. `add_option` is modelled in its
string-declaration form, which constructs a fresh `Option`; the string lists
of a constructed option obey `_set_opt_strings` (see `validSpec`). -/

/-- The fields of a freshly constructed `Option` that the registration
machinery reads or mutates. -/
structure OptSpec where
  shortOpts : List String
  longOpts : List String
  dest : Option String := Option.none
  default : Option PyVal := Option.none
deriving Repr

/-- Registration-time state: the option registry (identity to current
string lists), the `container` back-references, each container's
`option_list`, the shared `_short_opt` / `_long_opt` / `defaults` tables,
and fresh-identity counters. -/
structure RState where
  opts : List (Nat × OptSpec) := []
  containerOf : List (Nat × Nat) := []
  optionLists : List (Nat × List Nat) := [(0, [])]
  shortTable : List (String × Nat) := []
  longTable : List (String × Nat) := []
  defaults : List (String × PyVal) := []
  nextId : Nat := 0
  nextCid : Nat := 1
deriving Repr

/-- The conflict policy of the invoking container. -/
inductive ConflictHandler where
  | error
  | resolve
deriving DecidableEq, Repr

/-- Registration-time errors (`OptionConflictError` carrying the colliding
strings and the offending option; `ValueError` from `remove_option`). -/
inductive RegErr where
  | conflict (conflictStrs : List String) (spec : OptSpec)
  | valueError (optStr : String)

/-- The collision scan of `_check_conflict`: the new option's short strings
found in the short table, then its long strings found in the long table,
each paired with the identity of the already-registered owner. -/
def conflictPairs (st : RState) (o : OptSpec) : List (String × Nat) :=
  (o.shortOpts.filterMap fun s => (dget st.shortTable s).map (fun id => (s, id))) ++
  (o.longOpts.filterMap fun s => (dget st.longTable s).map (fun id => (s, id)))

/-- The string removal of one `resolve` iteration on the earlier option's
own lists: `c_option._long_opts.remove(opt)` when the string starts with
`--`, else `c_option._short_opts.remove(opt)`. -/
def stripSpec (s : String) (spec : OptSpec) : OptSpec :=
  if strStarts s "--" then { spec with longOpts := spec.longOpts.erase s }
  else { spec with shortOpts := spec.shortOpts.erase s }

/-- The registry and shared-table update of one `resolve` iteration:
the earlier option's record loses the string, and the matching table entry
(`del self._long_opt[opt]` / `del self._short_opt[opt]`) is deleted. -/
def stripState (st : RState) (s : String) (c : Nat) (spec : OptSpec) : RState :=
  { st with
    opts := dset st.opts c (stripSpec s spec),
    longTable := if strStarts s "--" then derase st.longTable s else st.longTable,
    shortTable := if strStarts s "--" then st.shortTable else derase st.shortTable s }

/-- `c_option.container.option_list.remove(c_option)`: drop the option from
its recorded container's list. -/
def dropFromList (st : RState) (c : Nat) : RState :=
  match dget st.containerOf c with
  | Option.none => st
  | some cid =>
    { st with
      optionLists := dset st.optionLists cid (((dget st.optionLists cid).getD []).erase c) }

/-- One iteration of the `resolve` loop of `_check_conflict`: the earlier
option loses the colliding string (from its own list and from the shared
table, chosen by the `--` test), and is removed from its container's option
list if it has no strings left. -/
def resolve_one (st : RState) (pr : String × Nat) : RState :=
  match dget st.opts pr.2 with
  | Option.none => st
  | some spec =>
    if (stripSpec pr.1 spec).shortOpts.isEmpty && (stripSpec pr.1 spec).longOpts.isEmpty then
      dropFromList (stripState st pr.1 pr.2 spec) pr.2
    else stripState st pr.1 pr.2 spec

/-- The unconditional tail of `add_option`, run after `_check_conflict` has
not raised (and after any `resolve` mutations): append the option (under a
fresh identity) to the container's list, point every one of its strings at
it in the shared tables, and update the default table (an option's own
default overwrites; a missing default installs Python `None` only for a new
key). -/
def add_option_tail (st1 : RState) (cid : Nat) (o : OptSpec) : RState :=
  { st1 with
    opts := st1.opts ++ [(st1.nextId, o)],
    containerOf := dset st1.containerOf st1.nextId cid,
    optionLists :=
      dset st1.optionLists cid (((dget st1.optionLists cid).getD []) ++ [st1.nextId]),
    shortTable := o.shortOpts.foldl (fun t s => dset t s st1.nextId) st1.shortTable,
    longTable := o.longOpts.foldl (fun t s => dset t s st1.nextId) st1.longTable,
    defaults :=
      match o.dest with
      | Option.none => st1.defaults
      | some d =>
        match o.default with
        | some v => dset st1.defaults d v
        | Option.none =>
          if (dget st1.defaults d).isNone then dset st1.defaults d PyVal.none
          else st1.defaults,
    nextId := st1.nextId + 1 }

/-- `OptionContainer.add_option` invoked on container `cid` with the given
conflict policy: run `_check_conflict` (raising under the `error` policy,
mutating under `resolve`), then register the option. -/
def add_option (st : RState) (handler : ConflictHandler) (cid : Nat) (o : OptSpec) :
    Except RegErr RState :=
  if (conflictPairs st o).isEmpty = false ∧ handler = .error then
    .error (.conflict ((conflictPairs st o).map Prod.fst) o)
  else
    .ok (add_option_tail
      (if handler = .resolve then (conflictPairs st o).foldl resolve_one st else st) cid o)

/-- `OptionContainer.remove_option`: find the owning option by any one of
its strings, delete all of its strings from both shared tables, and remove
it from its container's option list. -/
def remove_option (st : RState) (optStr : String) : Except RegErr RState :=
  let found : Option Nat :=
    match dget st.shortTable optStr with
    | some id => some id
    | Option.none => dget st.longTable optStr
  match found with
  | Option.none => .error (.valueError optStr)
  | some id =>
    match dget st.opts id with
    | Option.none => .error (.valueError optStr)
    | some spec =>
      let st2 := { st with
        shortTable := spec.shortOpts.foldl (fun t s => derase t s) st.shortTable,
        longTable := spec.longOpts.foldl (fun t s => derase t s) st.longTable }
      match dget st2.containerOf id with
      | Option.none => .error (.valueError optStr)
      | some cid =>
        .ok { st2 with
          optionLists :=
            dset st2.optionLists cid (((dget st2.optionLists cid).getD []).erase id) }

/-- The state produced by a successful `remove_option` once the owning
option `id`, its current record `spec` and its container `cid` have been
located: every string of `spec` is deleted from both shared tables and `id`
leaves the option list of container `cid`. -/
def removedState (st : RState) (id : Nat) (spec : OptSpec) (cid : Nat) : RState :=
  { st with
    shortTable := spec.shortOpts.foldl (fun t s => derase t s) st.shortTable,
    longTable := spec.longOpts.foldl (fun t s => derase t s) st.longTable,
    optionLists := dset st.optionLists cid (((dget st.optionLists cid).getD []).erase id) }

/-- `OptionParser.add_option_group` (group-creation form): a fresh container
sharing the parser's tables, with its own empty option list. -/
def add_option_group (st : RState) : RState × Nat :=
  ({ st with optionLists := st.optionLists ++ [(st.nextCid, [])],
             nextCid := st.nextCid + 1 },
   st.nextCid)

/-- A 2-character `-x` short option string (`_set_opt_strings`). -/
def isShortStr (s : String) : Bool :=
  match s.data with
  | [c1, c2] => c1 = '-' && c2 ≠ '-'
  | _ => false

/-- A `--xxx` long option string, third character not `-`
(`_set_opt_strings`). -/
def isLongStr (s : String) : Bool :=
  match s.data with
  | c1 :: c2 :: c3 :: _ => c1 = '-' && c2 = '-' && c3 ≠ '-'
  | _ => false

/-- String lists as produced by `Option._set_opt_strings` on a freshly
constructed option: every short string of `-x` form, every long string of
`--xxx` form, at least one string in total, and no string declared twice
(an option declaring the same string twice is degenerate: the source's
`resolve` loop crashes midway through `list.remove` on such an option). -/
def validSpec (o : OptSpec) : Bool :=
  o.shortOpts.all isShortStr && o.longOpts.all isLongStr &&
  !(o.shortOpts.isEmpty && o.longOpts.isEmpty) &&
  o.shortOpts.Nodup && o.longOpts.Nodup

/-- Parser states reachable by building a parser and then performing any
sequence of group creations, (valid) option registrations through any
container under either conflict policy, and option removals. -/
inductive Reachable : RState → Prop where
  | init : Reachable {}
  | newGroup {st : RState} : Reachable st → Reachable (add_option_group st).1
  | add {st st' : RState} {handler : ConflictHandler} {cid : Nat} {o : OptSpec} :
      Reachable st →
      (dget st.optionLists cid).isSome = true →
      validSpec o = true →
      add_option st handler cid o = .ok st' →
      Reachable st'
  | remove {st st' : RState} {s : String} :
      Reachable st →
      remove_option st s = .ok st' →
      Reachable st'

/-- The shared-table consistency invariant maintained by registration. The
first block is bookkeeping (all dictionaries have distinct keys, every
container's list has distinct members, identities and container numbers are
always below the freshness counters); the middle block is the claimed
invariant (every short/long table key belongs to the mapped option's own
short/long string list, every option's declared strings have the right
forms without repetition, every option reachable from a table sits in its
recorded container's option list, list membership always agrees with the
recorded container, and an option with no strings left sits in no list). -/
structure WF (st : RState) : Prop where
  shortNodup : (dkeys st.shortTable).Nodup
  longNodup : (dkeys st.longTable).Nodup
  optsNodup : (dkeys st.opts).Nodup
  listsNodup : (dkeys st.optionLists).Nodup
  listNodup : ∀ cid l, dget st.optionLists cid = some l → l.Nodup
  shortKeys : ∀ s id, dget st.shortTable s = some id →
    ∃ spec, dget st.opts id = some spec ∧ s ∈ spec.shortOpts
  longKeys : ∀ s id, dget st.longTable s = some id →
    ∃ spec, dget st.opts id = some spec ∧ s ∈ spec.longOpts
  specShortNodup : ∀ id spec, dget st.opts id = some spec → spec.shortOpts.Nodup
  specLongNodup : ∀ id spec, dget st.opts id = some spec → spec.longOpts.Nodup
  specShortForm : ∀ id spec, dget st.opts id = some spec →
    ∀ x ∈ spec.shortOpts, isShortStr x = true
  specLongForm : ∀ id spec, dget st.opts id = some spec →
    ∀ x ∈ spec.longOpts, isLongStr x = true
  tablesInList : ∀ id,
    ((∃ s, dget st.shortTable s = some id) ∨ (∃ s, dget st.longTable s = some id)) →
    ∃ cid l, dget st.containerOf id = some cid ∧ dget st.optionLists cid = some l ∧ id ∈ l
  listedCont : ∀ id cid l, dget st.optionLists cid = some l → id ∈ l →
    dget st.containerOf id = some cid
  contValid : ∀ id cid, dget st.containerOf id = some cid → cid ∈ dkeys st.optionLists
  noGhost : ∀ id spec, dget st.opts id = some spec →
    spec.shortOpts = [] → spec.longOpts = [] →
    ∀ cid l, dget st.optionLists cid = some l → id ∉ l
  freshOpts : ∀ id, id ∈ dkeys st.opts → id < st.nextId
  freshShort : ∀ s id, dget st.shortTable s = some id → id < st.nextId
  freshLong : ∀ s id, dget st.longTable s = some id → id < st.nextId
  freshLists : ∀ cid l, dget st.optionLists cid = some l → ∀ id ∈ l, id < st.nextId
  freshCids : ∀ cid, cid ∈ dkeys st.optionLists → cid < st.nextCid

/-- `WF` without the `noGhost` clause, used as an intermediate bundle while
proving preservation across the two halves of a `resolve` iteration. -/
structure WFCore (st : RState) : Prop where
  shortNodup : (dkeys st.shortTable).Nodup
  longNodup : (dkeys st.longTable).Nodup
  optsNodup : (dkeys st.opts).Nodup
  listsNodup : (dkeys st.optionLists).Nodup
  listNodup : ∀ cid l, dget st.optionLists cid = some l → l.Nodup
  shortKeys : ∀ s id, dget st.shortTable s = some id →
    ∃ spec, dget st.opts id = some spec ∧ s ∈ spec.shortOpts
  longKeys : ∀ s id, dget st.longTable s = some id →
    ∃ spec, dget st.opts id = some spec ∧ s ∈ spec.longOpts
  specShortNodup : ∀ id spec, dget st.opts id = some spec → spec.shortOpts.Nodup
  specLongNodup : ∀ id spec, dget st.opts id = some spec → spec.longOpts.Nodup
  specShortForm : ∀ id spec, dget st.opts id = some spec →
    ∀ x ∈ spec.shortOpts, isShortStr x = true
  specLongForm : ∀ id spec, dget st.opts id = some spec →
    ∀ x ∈ spec.longOpts, isLongStr x = true
  tablesInList : ∀ id,
    ((∃ s, dget st.shortTable s = some id) ∨ (∃ s, dget st.longTable s = some id)) →
    ∃ cid l, dget st.containerOf id = some cid ∧ dget st.optionLists cid = some l ∧ id ∈ l
  listedCont : ∀ id cid l, dget st.optionLists cid = some l → id ∈ l →
    dget st.containerOf id = some cid
  contValid : ∀ id cid, dget st.containerOf id = some cid → cid ∈ dkeys st.optionLists
  freshOpts : ∀ id, id ∈ dkeys st.opts → id < st.nextId
  freshShort : ∀ s id, dget st.shortTable s = some id → id < st.nextId
  freshLong : ∀ s id, dget st.longTable s = some id → id < st.nextId
  freshLists : ∀ cid l, dget st.optionLists cid = some l → ∀ id ∈ l, id < st.nextId
  freshCids : ∀ cid, cid ∈ dkeys st.optionLists → cid < st.nextCid

/-! ## Help formatter (`formatters.py`, class `HelpFormatter`) -/

/-- ASCII uppercasing (Python `str.upper` on destination keys). -/
def charUpper (c : Char) : Char :=
  if 'a' ≤ c ∧ c ≤ 'z' then Char.ofNat (c.toNat - 32) else c

/-- Python `s.upper()` (ASCII fragment). -/
def strUpper (s : String) : String := String.mk (s.data.map charUpper)

/-- Python `str(v)` on the values that can appear as defaults in help text
(`str` of a float or tuple is not normalised here; no claim exercises it). -/
def pyStr : PyVal → String
  | .none => "None"
  | .bool true => "True"
  | .bool false => "False"
  | .int n => toString n
  | .str s => s
  | .floatv s => s
  | .complexv s => s
  | .tuple _ => "tuple"
  | .list _ => "list"

/-- Python `s.replace(pat, new)` for a non-empty pattern: non-overlapping
left-to-right replacement (an empty pattern leaves the string unchanged,
a modelling simplification; the tag `%default` is never empty). -/
def strReplaceAux (pat new : List Char) : List Char → List Char
  | [] => []
  | c :: rest =>
    if pat.isPrefixOf (c :: rest) then new ++ strReplaceAux pat new (rest.drop (pat.length - 1))
    else c :: strReplaceAux pat new rest
termination_by cs => cs.length
decreasing_by
  · simp only [List.length_cons, List.length_drop]
    omega
  · simp [List.length_cons]

/-- Python `s.replace(pat, new)`. -/
def strReplace (s pat new : String) : String :=
  if pat = "" then s else String.mk (strReplaceAux pat.data new.data s.data)

/-- Split a character list into whitespace-separated words. -/
def splitWordsAux (cur : List Char) : List Char → List String
  | [] => if cur.isEmpty then [] else [String.mk cur.reverse]
  | c :: rest =>
    if c = ' ' ∨ c = '\t' ∨ c = '\n' then
      if cur.isEmpty then splitWordsAux [] rest
      else String.mk cur.reverse :: splitWordsAux [] rest
    else splitWordsAux (c :: cur) rest

/-- Greedy word packing into lines of width `w`. -/
def wrapAux (w : Nat) (cur : String) : List String → List String
  | [] => [cur]
  | wd :: wds =>
    if strLen cur + 1 + strLen wd ≤ w then wrapAux w (cur ++ " " ++ wd) wds
    else cur :: wrapAux w wd wds

/-- Modelled from Python's `textwrap.wrap(text, w)` (not part of `src/`):
greedy packing of whitespace-separated words; breaking of words longer than
the width and whitespace normalisation subtleties are not modelled. An
empty or whitespace-only text wraps to `[]`, as in `textwrap`. -/
def wrapText (text : String) (w : Nat) : List String :=
  match splitWordsAux [] text.data with
  | [] => []
  | wd :: wds => wrapAux w wd wds

/-- The formatter state (class `HelpFormatter`). The two metavar delimiters
are carried directly (defaults `" "` for `"%s %s"` and `"="` for
`"%s=%s"`). -/
structure FmtState where
  width : Nat
  indent_increment : Nat
  help_position : Nat
  max_help_position : Nat
  current_indent : Nat
  level : Nat
  help_width : Option Nat
  short_first : Int
  default_tag : String
  short_delim : String
  long_delim : String
deriving Repr

/-- `HelpFormatter.__init__(indent_increment, max_help_position, short_first,
width)`: `self.width` is hard-coded to 180; both `help_position` and
`max_help_position` are set to
`min(max_help_position, max(width - 20, indent_increment * 2))` — not to
the supplied ceiling itself. The `width` parameter takes part only in that
clamp (a `None` width is a `TypeError` in the source; the concrete
subclasses pass their `short_first` integer in this position). -/
def HelpFormatter_init (indent_increment max_help_position : Nat)
    (short_first : Int) (width : Int) : FmtState :=
  let pos : Int :=
    min (max_help_position : Int) (max (width - 20) (2 * (indent_increment : Int)))
  { width := 180
    indent_increment := indent_increment
    help_position := pos.toNat
    max_help_position := pos.toNat
    current_indent := 0
    level := 0
    help_width := Option.none
    short_first := short_first
    default_tag := "%default"
    short_delim := " "
    long_delim := "=" }

/-- `HelpFormatter.indent()`. -/
def fmtIndent (f : FmtState) : FmtState :=
  { f with current_indent := f.current_indent + f.indent_increment, level := f.level + 1 }

/-- `HelpFormatter.dedent()`. -/
def fmtDedent (f : FmtState) : FmtState :=
  { f with current_indent := f.current_indent - f.indent_increment, level := f.level - 1 }

/-- `HelpFormatter.format_option_strings`: the option-string label, for
example `-f FILE, --file=FILE` (delimiters and short/long ordering
configurable). -/
def format_option_strings (f : FmtState) (o : POption) : String :=
  let opts :=
    if takes_value o then
      let metavar := (o.metavar).getD (strUpper ((o.dest).getD ""))
      let short_opts := o.shortOpts.map (fun s => s ++ f.short_delim ++ metavar)
      let long_opts := o.longOpts.map (fun l => l ++ f.long_delim ++ metavar)
      if f.short_first ≠ 0 then short_opts ++ long_opts else long_opts ++ short_opts
    else
      if f.short_first ≠ 0 then o.shortOpts ++ o.longOpts else o.longOpts ++ o.shortOpts
  joinSep ", " opts

/-- The running maximum computed by the two passes inside
`store_option_strings`: direct options rendered at one extra indent, group
options at two. -/
def storeMaxLen (f : FmtState) (optList : List POption)
    (groups : List (List POption)) : Nat :=
  groups.foldl
    (fun m g => g.foldl
      (fun m2 o => max m2 (strLen (format_option_strings (fmtIndent (fmtIndent f)) o) +
        (fmtIndent (fmtIndent f)).current_indent)) m)
    (optList.foldl
      (fun m o => max m (strLen (format_option_strings (fmtIndent f) o) +
        (fmtIndent f).current_indent)) 0)

/-- `HelpFormatter.store_option_strings`: the first formatting pass. Renders
every label (direct options at one extra indent, group options at two) while
tracking the maximum indented label width, then fixes the help column at
that maximum plus 2 clamped by `max_help_position`, and the help text width
at the remaining columns with floor 11. -/
def store_option_strings (f : FmtState) (optList : List POption)
    (groups : List (List POption)) : FmtState :=
  let f3 := fmtDedent (fmtDedent (fmtIndent (fmtIndent f)))
  let hp := min (storeMaxLen f optList groups + 2) f3.max_help_position
  { f3 with help_position := hp,
            help_width := some (max ((f3.width : Int) - hp) 11).toNat }

/-- `HelpFormatter.expand_default`: substitute the `%default` tag by the
resolved default (the literal `none` when there is no default or it is
Python `None`). -/
def expand_default (defaults : List (String × PyVal)) (f : FmtState) (o : POption) :
    String :=
  if f.default_tag = "" then (o.help).getD ""
  else
    let default_value :=
      match o.dest with
      | some d => dget defaults d
      | Option.none => Option.none
    let dv :=
      match default_value with
      | Option.none => "none"
      | some .none => "none"
      | some v => pyStr v
    strReplace ((o.help).getD "") f.default_tag dv

/-- Last character check, Python `opts[-1] != "\n"`. -/
def strEndsWith (s : String) (c : Char) : Bool := s.data.getLast? = some c

/-- `HelpFormatter.format_option`: render one option's label plus wrapped
help. `opts0` is the label stored for this option by
`store_option_strings`. The label and the first help line share a row
exactly when the label length fits within `help_position - current_indent -
2`; otherwise the label takes its own row and help starts at the help
column of the next row. -/
def format_option (f : FmtState) (defaults : List (String × PyVal)) (o : POption)
    (opts0 : String) : String :=
  let opt_width : Int := (f.help_position : Int) - f.current_indent - 2
  if (strLen opts0 : Int) > opt_width then
    let opts := spaces f.current_indent ++ opts0 ++ "\n"
    let indent_first := f.help_position
    if (o.help).getD "" ≠ "" then
      let help_lines := wrapText (expand_default defaults f o) ((f.help_width).getD 0)
      opts ++ (spaces indent_first ++ help_lines.headD "" ++ "\n") ++
        String.join ((help_lines.drop 1).map
          (fun line => spaces f.help_position ++ line ++ "\n"))
    else opts
  else
    let opts := spaces f.current_indent ++ padRight opts0 opt_width.toNat ++ "  "
    if (o.help).getD "" ≠ "" then
      let help_lines := wrapText (expand_default defaults f o) ((f.help_width).getD 0)
      opts ++ (help_lines.headD "" ++ "\n") ++
        String.join ((help_lines.drop 1).map
          (fun line => spaces f.help_position ++ line ++ "\n"))
    else if !strEndsWith opts '\n' then opts ++ "\n"
    else opts

/-- The maximum rendered option-label width, as indented (direct options at
one indent increment, group options at two), stated the way the claim words
it; compared against the fold inside `store_option_strings`. -/
def maxLabelWidth (f : FmtState) (optList : List POption)
    (groups : List (List POption)) : Nat :=
  ((optList.map
      (fun o => strLen (format_option_strings f o) + (f.current_indent + f.indent_increment))) ++
   (groups.flatten.map
      (fun o => strLen (format_option_strings f o) +
        (f.current_indent + 2 * f.indent_increment)))).foldl max 0

/-! ## Concrete fixtures used by the claim theorems -/

/-- The `-v` and `--verbose` option of the concrete scenario. -/
def optVerbose : POption :=
  { shortOpts := ["-v"], longOpts := ["--verbose"], action := .store_true,
    dest := some "verbose" }

/-- The `-o` and `--output` option of the concrete scenario. -/
def optOutput : POption :=
  { shortOpts := ["-o"], longOpts := ["--output"], action := .store,
    type := some .string, dest := some "output" }

/-- Parser with `-v` and `--verbose` and `-o` and `--output` registered. -/
def parserVO : PParser := pparser_add (pparser_add {} optVerbose) optOutput

/-- A value-taking `-a`. -/
def optA : POption :=
  { shortOpts := ["-a"], longOpts := [], action := .store,
    type := some .string, dest := some "a" }

/-- A value-taking `-b`. -/
def optB : POption :=
  { shortOpts := ["-b"], longOpts := [], action := .store,
    type := some .string, dest := some "b" }

/-- Parser with `-a` and `-b`, interspersed arguments enabled (default). -/
def parserAB : PParser := pparser_add (pparser_add {} optA) optB

/-- The same parser after `disable_interspersed_args()`. -/
def parserABstop : PParser := { parserAB with allow_interspersed_args := false }

/-- An `-n` option of type `int` whose default is the plain string `"abc"`. -/
def optN : POption :=
  { shortOpts := ["-n"], longOpts := [], action := .store,
    type := some .int, dest := some "n", default := some (.str "abc") }

/-- Parser with the bad-string-default `-n` registered. -/
def parserN : PParser := pparser_add {} optN

/-- Ascending order by Python string comparison (the postcondition of
`list.sort()`). -/
def StrSorted (l : List String) : Prop := l.Pairwise (fun a b => pyStrLe a b = true)

/-- Extract the state of a successful registration (fixtures only ever apply
this to successful ones). -/
def rstApply (e : Except RegErr RState) : RState :=
  match e with
  | .ok st => st
  | .error _ => {}

/-- First option reusing destination key `x`, with its own default 1. -/
def specX1 : OptSpec :=
  { shortOpts := ["-x"], longOpts := [], dest := some "x", default := some (.int 1) }

/-- Second option reusing destination key `x`, with its own default 2. -/
def specY2 : OptSpec :=
  { shortOpts := ["-y"], longOpts := [], dest := some "x", default := some (.int 2) }

/-- State after registering `specX1` then `specY2` on a fresh parser. -/
def stateXY : RState :=
  rstApply (add_option (rstApply (add_option {} .error 0 specX1)) .error 0 specY2)

/-- A `-f FILE, --file=FILE` style option for the formatter claims. -/
def optFile : POption :=
  { shortOpts := ["-f"], longOpts := ["--file"], action := .store,
    type := some .string, dest := some "file" }

/-- A formatter built with ceiling 24 but narrow width 10:
`max_help_position` becomes `min(24, max(10 - 20, 2 * 2)) = 4`. -/
def fmtNarrow : FmtState := HelpFormatter_init 2 24 1 10

/-- An option declaring `-x` and `--ex`, used to seed a conflict. -/
def optEx : OptSpec := { shortOpts := ["-x"], longOpts := ["--ex"] }

/-- A later option whose `-x` collides with `optEx`. -/
def optWhy : OptSpec := { shortOpts := ["-x"], longOpts := ["--why"] }

/-- A fresh parser with `optEx` registered on container 0 (conflict-free, so
the registration is just the `add_option` tail). -/
def stX1 : RState := add_option_tail {} 0 optEx

/-! # Theorems -/

/-! ## Association-list lemmas -/

theorem dget_dset_self [DecidableEq κ] (l : List (κ × α)) (k : κ) (v : α) :
    dget (dset l k v) k = some v := by
  induction l with
  | nil => simp [dset, dget]
  | cons h t ih =>
    obtain ⟨k0, v0⟩ := h
    by_cases hk : k0 = k <;> simp [dset, dget, hk, ih]

theorem dget_dset_ne [DecidableEq κ] (l : List (κ × α)) (k k' : κ) (v : α)
    (h : k' ≠ k) : dget (dset l k v) k' = dget l k' := by
  induction l with
  | nil => simp [dset, dget, Ne.symm h]
  | cons hd t ih =>
    obtain ⟨k0, v0⟩ := hd
    by_cases hk : k0 = k
    · subst hk
      simp [dset, dget, Ne.symm h]
    · simp only [dset, if_neg hk, dget]
      by_cases hk' : k0 = k' <;> simp [hk', ih]

theorem derase_sublist [DecidableEq κ] (l : List (κ × α)) (k : κ) :
    (derase l k).Sublist l := by
  induction l with
  | nil => simp [derase]
  | cons hd t ih =>
    obtain ⟨k0, v0⟩ := hd
    by_cases hk : k0 = k
    · rw [derase, if_pos hk]
      exact List.sublist_cons_self (k0, v0) t
    · simpa [derase, hk] using ih.cons₂ (k0, v0)

theorem dkeys_dset [DecidableEq κ] (l : List (κ × α)) (k : κ) (v : α) :
    dkeys (dset l k v) = if k ∈ dkeys l then dkeys l else dkeys l ++ [k] := by
  induction l with
  | nil => simp [dset, dkeys]
  | cons hd t ih =>
    obtain ⟨k0, v0⟩ := hd
    by_cases hk : k0 = k
    · subst hk
      simp [dset, dkeys]
    · have hk2 : ¬k = k0 := fun hh => hk hh.symm
      simp only [dset, if_neg hk]
      show k0 :: dkeys (dset t k v) = _
      rw [ih]
      by_cases hm : k ∈ List.map Prod.fst t
      · simp [dkeys, hm, hk2]
      · simp [dkeys, hm, hk2]

theorem dset_keys_nodup [DecidableEq κ] (l : List (κ × α)) (k : κ) (v : α)
    (h : (dkeys l).Nodup) : (dkeys (dset l k v)).Nodup := by
  rw [dkeys_dset]
  by_cases hm : k ∈ dkeys l
  · simpa [hm] using h
  · simpa [hm] using (List.nodup_append.mpr ⟨h, by simp, by simp [hm]⟩)

theorem derase_keys_nodup [DecidableEq κ] (l : List (κ × α)) (k : κ)
    (h : (dkeys l).Nodup) : (dkeys (derase l k)).Nodup :=
  ((derase_sublist l k).map Prod.fst).nodup h

theorem dget_eq_none_of_not_mem [DecidableEq κ] (l : List (κ × α)) (k : κ)
    (h : k ∉ dkeys l) : dget l k = Option.none := by
  induction l with
  | nil => simp [dget]
  | cons hd t ih =>
    obtain ⟨k0, v0⟩ := hd
    simp only [dkeys, List.map_cons, List.mem_cons, not_or] at h
    simp [dget, Ne.symm h.1, ih h.2]

theorem not_mem_dkeys_derase [DecidableEq κ] (l : List (κ × α)) (k : κ)
    (h : (dkeys l).Nodup) : k ∉ dkeys (derase l k) := by
  induction l with
  | nil => simp [derase, dkeys]
  | cons hd t ih =>
    obtain ⟨k0, v0⟩ := hd
    simp only [dkeys, List.map_cons, List.nodup_cons] at h
    by_cases hk : k0 = k
    · subst hk
      simpa [derase, dkeys] using h.1
    · simp only [derase, if_neg hk, dkeys, List.map_cons, List.mem_cons, not_or]
      exact ⟨fun hh => hk hh.symm, ih h.2⟩

theorem dget_derase_self [DecidableEq κ] (l : List (κ × α)) (k : κ)
    (h : (dkeys l).Nodup) : dget (derase l k) k = Option.none :=
  dget_eq_none_of_not_mem _ _ (not_mem_dkeys_derase l k h)

theorem dget_derase_ne [DecidableEq κ] (l : List (κ × α)) (k k' : κ)
    (h : k' ≠ k) : dget (derase l k) k' = dget l k' := by
  induction l with
  | nil => simp [derase]
  | cons hd t ih =>
    obtain ⟨k0, v0⟩ := hd
    by_cases hk : k0 = k
    · subst hk
      simp [derase, dget, Ne.symm h]
    · simp only [derase, if_neg hk, dget]
      by_cases hk' : k0 = k' <;> simp [hk', ih]

theorem dget_append [DecidableEq κ] (l1 l2 : List (κ × α)) (k : κ) :
    dget (l1 ++ l2) k =
      match dget l1 k with
      | some v => some v
      | Option.none => dget l2 k := by
  induction l1 with
  | nil => simp [dget]
  | cons hd t ih =>
    obtain ⟨k0, v0⟩ := hd
    by_cases hk : k0 = k <;> simp [dget, hk, ih]

theorem dget_fold_dset [DecidableEq κ] (ss : List κ) (v : α) (l : List (κ × α)) (k : κ) :
    dget (ss.foldl (fun t s => dset t s v) l) k =
      if k ∈ ss then some v else dget l k := by
  induction ss generalizing l with
  | nil => simp
  | cons s ss' ih =>
    simp only [List.foldl_cons, List.mem_cons]
    by_cases hm : k ∈ ss'
    · simp [ih, hm]
    · by_cases he : k = s
      · subst he
        simp [ih, hm, dget_dset_self]
      · simp [ih, hm, he, dget_dset_ne _ _ _ _ he]

theorem fold_derase_keys_nodup [DecidableEq κ] (ss : List κ) (l : List (κ × α))
    (h : (dkeys l).Nodup) : (dkeys (ss.foldl (fun t s => derase t s) l)).Nodup := by
  induction ss generalizing l with
  | nil => simpa
  | cons s ss' ih => exact ih _ (derase_keys_nodup _ _ h)

theorem dget_fold_derase [DecidableEq κ] (ss : List κ) (l : List (κ × α)) (k : κ)
    (h : (dkeys l).Nodup) :
    dget (ss.foldl (fun t s => derase t s) l) k =
      if k ∈ ss then Option.none else dget l k := by
  induction ss generalizing l with
  | nil => simp
  | cons s ss' ih =>
    simp only [List.foldl_cons, List.mem_cons]
    by_cases hm : k ∈ ss'
    · simp [ih _ (derase_keys_nodup _ _ h), hm]
    · by_cases he : k = s
      · subst he
        simp [ih _ (derase_keys_nodup _ _ h), hm, dget_derase_self _ _ h]
      · simp [ih _ (derase_keys_nodup _ _ h), hm, he, dget_derase_ne _ _ _ he]

theorem fold_dset_keys_nodup [DecidableEq κ] (ss : List κ) (v : α) (l : List (κ × α))
    (h : (dkeys l).Nodup) : (dkeys (ss.foldl (fun t s => dset t s v) l)).Nodup := by
  induction ss generalizing l with
  | nil => simpa
  | cons s ss' ih => exact ih _ (dset_keys_nodup _ _ _ h)

/-! ## Sort lemmas (embedding of `list.sort()`) -/

theorem pyInsert_perm (x : String) (l : List String) :
    List.Perm (pyInsert x l) (x :: l) := by
  induction l with
  | nil => simp [pyInsert]
  | cons y ys ih =>
    simp only [pyInsert]
    split
    · exact List.Perm.refl _
    · exact (ih.cons y).trans (List.Perm.swap x y ys)

theorem pySort_perm (l : List String) : List.Perm (pySort l) l := by
  induction l with
  | nil => simp [pySort]
  | cons x xs ih => exact (pyInsert_perm x (pySort xs)).trans (ih.cons x)

theorem pyLexLt_total (as bs : List Char) :
    pyLexLt as bs = true ∨ pyLexLt bs as = true ∨ as = bs := by
  induction as generalizing bs with
  | nil => cases bs <;> simp [pyLexLt]
  | cons a as' ih =>
    cases bs with
    | nil => simp [pyLexLt]
    | cons b bs' =>
      rcases Nat.lt_trichotomy a.toNat b.toNat with h | h | h
      · left; simp [pyLexLt, h]
      · have hab : a = b := Char.ext (UInt32.ext h)
        subst hab
        rcases ih bs' with h1 | h1 | h1
        · left; simp [pyLexLt, h1]
        · right; left; simp [pyLexLt, h1]
        · right; right; rw [h1]
      · right; left; simp [pyLexLt, h]

theorem pyLexLt_trans (as bs cs : List Char)
    (h1 : pyLexLt as bs = true) (h2 : pyLexLt bs cs = true) :
    pyLexLt as cs = true := by
  induction as generalizing bs cs with
  | nil =>
    cases bs with
    | nil => simp [pyLexLt] at h1
    | cons b bs' => cases cs with
      | nil => simp [pyLexLt] at h2
      | cons c cs' => simp [pyLexLt]
  | cons a as' ih =>
    cases bs with
    | nil => simp [pyLexLt] at h1
    | cons b bs' =>
      cases cs with
      | nil => simp [pyLexLt] at h2
      | cons c cs' =>
        simp only [pyLexLt, Bool.or_eq_true, decide_eq_true_eq, Bool.and_eq_true,
          beq_iff_eq] at h1 h2 ⊢
        rcases h1 with h1 | ⟨hab, h1⟩
        · rcases h2 with h2 | ⟨hbc, h2⟩
          · exact Or.inl (Nat.lt_trans h1 h2)
          · subst hbc; exact Or.inl h1
        · subst hab
          rcases h2 with h2 | ⟨hbc, h2⟩
          · exact Or.inl h2
          · subst hbc; exact Or.inr ⟨rfl, ih bs' cs' h1 h2⟩

theorem pyStrLe_total (a b : String) : pyStrLe a b = true ∨ pyStrLe b a = true := by
  rcases pyLexLt_total a.data b.data with h | h | h
  · left; simp [pyStrLe, h]
  · right; simp [pyStrLe, h]
  · left
    have : a = b := by
      cases a; cases b; simp_all
    simp [pyStrLe, this]

theorem pyStrLe_trans (a b c : String)
    (h1 : pyStrLe a b = true) (h2 : pyStrLe b c = true) : pyStrLe a c = true := by
  simp only [pyStrLe, Bool.or_eq_true, decide_eq_true_eq] at h1 h2 ⊢
  rcases h1 with h1 | h1
  · subst h1; exact h2
  · rcases h2 with h2 | h2
    · subst h2; exact Or.inr h1
    · exact Or.inr (pyLexLt_trans _ _ _ h1 h2)

theorem pyInsert_sorted (x : String) (l : List String) (h : StrSorted l) :
    StrSorted (pyInsert x l) := by
  induction l with
  | nil => simp [pyInsert, StrSorted]
  | cons y ys ih =>
    simp only [pyInsert]
    rcases List.pairwise_cons.mp h with ⟨hy, hys⟩
    split
    · rename_i hle
      exact List.Pairwise.cons
        (by
          intro z hz
          rcases List.mem_cons.mp hz with rfl | hz
          · exact hle
          · exact pyStrLe_trans x y z hle (hy z hz)) h
    · rename_i hnle
      have hyx : pyStrLe y x = true := by
        rcases pyStrLe_total x y with ht | ht
        · exact absurd ht hnle
        · exact ht
      exact List.Pairwise.cons
        (by
          intro z hz
          have hz2 := (pyInsert_perm x ys).mem_iff.mp hz
          rcases List.mem_cons.mp hz2 with rfl | hz2
          · exact hyx
          · exact hy z hz2) (ih hys)

theorem pySort_sorted (l : List String) : StrSorted (pySort l) := by
  induction l with
  | nil => simp [pySort, StrSorted]
  | cons x xs ih => exact pyInsert_sorted x (pySort xs) ih

/-! ## Claim theorems: parsing scenarios -/

/-- C1: with `-v` and `--verbose` (store_true, dest verbose) and `-o` and `--output`
(store, type string, dest output, nargs 1) registered, parsing
`["-v", "--output=report.txt", "extra"]` yields Values with verbose = True
and output = "report.txt" and leftover `["extra"]`, and parsing the short
cluster form `["-vo", "report.txt", "extra"]` yields exactly the same
Values and leftover. -/
theorem long_and_cluster_scenarios_agree :
    parse_args parserVO [] ["-v", "--output=report.txt", "extra"] Option.none =
      .ok [("verbose", .bool true), ("output", .str "report.txt")] ["extra"] ∧
    parse_args parserVO [] ["-vo", "report.txt", "extra"] Option.none =
      .ok [("verbose", .bool true), ("output", .str "report.txt")] ["extra"] :=
  ⟨rfl, rfl⟩

/-- C3: whenever the processing loop reaches `--` at the head of the
remaining tokens, it drops that token and terminates at once: the collected
leftover and the rest of the stream come back verbatim, with no further
classification of any suffix token (so the final leftover of `parse_args`,
`largs ++ rargs`, carries the suffix unchanged and in order at its end). -/
theorem double_dash_terminates (p : PParser) (fuel : Nat) (largs suffix : List String)
    (values : Values) (h : 1 ≤ fuel) :
    _process_args p fuel largs ("--" :: suffix) values = .ok (largs, suffix, values) := by
  match fuel, h with
  | f + 1, _ => simp [_process_args]

/-- Witness for C3 at a concrete state whose suffix tokens look like
options. -/
theorem double_dash_terminates_witness :
    _process_args parserVO 3 ["kept"] ("--" :: ["--output=x", "-q"]) ([] : Values) =
      .ok (["kept"], ["--output=x", "-q"], ([] : Values)) :=
  double_dash_terminates parserVO 3 ["kept"] ["--output=x", "-q"] ([] : Values)
    (by decide)

/-- C4: with value-taking `-a` and `-b`, parsing
`["-a", "x", "pos1", "-b", "y", "pos2"]` leaves leftover
`["pos1", "pos2"]` when interspersed arguments are enabled, and leftover
`["pos1", "-b", "y", "pos2"]` when they are disabled (the loop stops at the
first non-option token). -/
theorem interspersed_vs_stop_early :
    parse_args parserAB [] ["-a", "x", "pos1", "-b", "y", "pos2"] Option.none =
      .ok [("a", .str "x"), ("b", .str "y")] ["pos1", "pos2"] ∧
    parse_args parserABstop [] ["-a", "x", "pos1", "-b", "y", "pos2"] Option.none =
      .ok [("a", .str "x"), ("b", .none)] ["pos1", "-b", "y", "pos2"] :=
  ⟨rfl, rfl⟩

/-- C2: abbreviation resolution is a pure function of the candidate and the
table (it is a plain function here, so statelessness is by construction).
An exact match returns the candidate itself; otherwise with P the registered
strings having the candidate as a prefix, a unique member of P is returned,
an empty P fails with BadOptionError carrying the candidate, and a P with
two or more members fails with AmbiguousOptionError carrying exactly the
members of P in sorted order. -/
theorem match_abbrev_resolution (s : String) (words : List String) :
    (s ∈ words → _match_abbrev s words = .ok s) ∧
    (s ∉ words →
      (∀ w, words.filter (fun word => strStarts word s) = [w] →
        _match_abbrev s words = .ok w) ∧
      (words.filter (fun word => strStarts word s) = [] →
        _match_abbrev s words = .error (.badOption s)) ∧
      (2 ≤ (words.filter (fun word => strStarts word s)).length →
        _match_abbrev s words =
          .error (.ambiguousOption s
            (pySort (words.filter (fun word => strStarts word s)))) ∧
        List.Perm (pySort (words.filter (fun word => strStarts word s)))
          (words.filter (fun word => strStarts word s)) ∧
        StrSorted (pySort (words.filter (fun word => strStarts word s))))) := by
  constructor
  · intro h
    simp [_match_abbrev, h]
  · intro h
    refine ⟨?_, ?_, ?_⟩
    · intro w hw
      simp [_match_abbrev, h, hw]
    · intro hw
      simp [_match_abbrev, h, hw]
    · intro hw
      have h1 : (words.filter (fun word => strStarts word s)).length ≠ 1 := by omega
      have h2 : (words.filter (fun word => strStarts word s)).isEmpty = false := by
        cases hf : words.filter (fun word => strStarts word s)
        · rw [hf] at hw
          simp at hw
        · simp
      refine ⟨?_, pySort_perm _, pySort_sorted _⟩
      simp [_match_abbrev, h, h1, h2]

/-- Witness for C2 at the ambiguous prefix `--out` against `--output` and
`--outdir`. -/
theorem match_abbrev_resolution_witness :
    _match_abbrev "--out" ["--output", "--outdir"] =
      .error (.ambiguousOption "--out"
        (pySort (["--output", "--outdir"].filter (fun word => strStarts word "--out")))) ∧
    List.Perm (pySort (["--output", "--outdir"].filter (fun word => strStarts word "--out")))
      (["--output", "--outdir"].filter (fun word => strStarts word "--out")) ∧
    StrSorted (pySort (["--output", "--outdir"].filter (fun word => strStarts word "--out"))) :=
  ((match_abbrev_resolution "--out" ["--output", "--outdir"]).2 (by decide)).2.2 (by decide)

/-- C6 (amended): the `0x` (base 16) / `0b` (base 2, marker stripped first,
empty remainder as "0") / leading-`0` (base 8) / default base-10 radix
recognition applies to the `int` and `long` value types only, with a
conversion failure producing an OptionValueError naming `integer` and the
offending value; the `float` and `complex` types call the corresponding
builtin parsers directly (plain decimal grammars with no radix markers),
with failures naming `floating-point` respectively `complex` and the
value. -/
theorem numeric_conversion_radix (opt value : String) :
    (strLower (strTake value 2) = "0x" → _parse_num value = pyIntOfString value 16) ∧
    (strLower (strTake value 2) ≠ "0x" → strLower (strTake value 2) = "0b" →
      _parse_num value =
        pyIntOfString (if strDrop value 2 = "" then "0" else strDrop value 2) 2) ∧
    (strLower (strTake value 2) ≠ "0x" → strLower (strTake value 2) ≠ "0b" →
      strTake value 1 = "0" → _parse_num value = pyIntOfString value 8) ∧
    (strLower (strTake value 2) ≠ "0x" → strLower (strTake value 2) ≠ "0b" →
      strTake value 1 ≠ "0" → _parse_num value = pyIntOfString value 10) ∧
    (∀ t, t = PType.int ∨ t = PType.long →
      check_builtin t opt value =
        (match _parse_num value with
         | some n => .ok (.int n)
         | Option.none =>
           .error (.optionValue
             ("option " ++ opt ++ ": invalid integer value: " ++ pyRepr value)))) ∧
    (check_builtin .float opt value =
      (if pyFloatAccepts value then .ok (.floatv value)
       else .error (.optionValue
         ("option " ++ opt ++ ": invalid floating-point value: " ++ pyRepr value)))) ∧
    (check_builtin .complex opt value =
      (if pyComplexAccepts value then .ok (.complexv value)
       else .error (.optionValue
         ("option " ++ opt ++ ": invalid complex value: " ++ pyRepr value)))) := by
  refine ⟨?_, ?_, ?_, ?_, ?_, ?_, ?_⟩
  · intro h
    simp [_parse_num, h]
  · intro h1 h2
    simp [_parse_num, h1, h2]
  · intro h1 h2 h3
    simp [_parse_num, h1, h2, h3]
  · intro h1 h2 h3
    simp [_parse_num, h1, h2, h3]
  · rintro t (rfl | rfl) <;> rfl
  · simp [check_builtin]
  · simp [check_builtin]

/-- Witness for C6 at concrete inputs for each radix branch. -/
theorem numeric_conversion_radix_witness :
    _parse_num "0x1A" = pyIntOfString "0x1A" 16 ∧
    _parse_num "0b" = pyIntOfString "0" 2 ∧
    _parse_num "010" = pyIntOfString "010" 8 ∧
    _parse_num "37" = pyIntOfString "37" 10 ∧
    check_builtin PType.int "-n" "abc" =
      .error (.optionValue ("option " ++ "-n" ++ ": invalid integer value: " ++ pyRepr "abc")) := by
  refine ⟨(numeric_conversion_radix "-n" "0x1A").1 (by rfl),
          ?_,
          ((numeric_conversion_radix "-n" "010").2.2.1 (by decide) (by decide) (by rfl)),
          ((numeric_conversion_radix "-n" "37").2.2.2.1 (by decide) (by decide) (by decide)),
          ?_⟩
  · have h := (numeric_conversion_radix "-n" "0b").2.1 (by decide) (by rfl)
    simpa using h
  · have h := (numeric_conversion_radix "-n" "abc").2.2.2.2.1 PType.int (Or.inl rfl)
    simpa using h

/-- C6 counterexample to the claim as stated: for the `float` and `complex`
value types a `0x`-prefixed value string is not converted in base 16 — the
builtin converters reject it and an invalid-value error is produced — while
the very same string does convert (to 16) under the `int` type. -/
theorem numeric_conversion_radix_counterexample :
    check_builtin .float "-f" "0x10" =
      .error (.optionValue "option -f: invalid floating-point value: \x270x10\x27") ∧
    check_builtin .complex "-c" "0x10" =
      .error (.optionValue "option -c: invalid complex value: \x270x10\x27") ∧
    check_builtin .int "-n" "0x10" = .ok (.int 16) :=
  ⟨rfl, rfl, rfl⟩

/-- C7 (amended): a BadOptionError or OptionValueError raised while
`_process_args` consumes the token vector is caught by `parse_args` and
turned into a usage-error process termination with exit status 2; but an
OptionValueError raised while materialising default values
(`get_default_values` runs before the `try` block) propagates to the caller
as a raw exception. -/
theorem option_value_error_containment (p : PParser) (argv args : List String)
    (hne : args ≠ []) :
    (∀ e, get_default_values p = .error e →
      parse_args p argv args Option.none = .raised e) ∧
    (∀ v0, get_default_values p = .ok v0 →
      (∀ m, _process_args p (args.length + 1) [] args v0 = .error (.optionValue m) →
        parse_args p argv args Option.none = .exited 2 m) ∧
      (∀ s, _process_args p (args.length + 1) [] args v0 = .error (.badOption s) →
        parse_args p argv args Option.none = .exited 2 ("no such option: " ++ s))) := by
  have hie : args.isEmpty = false := by
    cases args
    · exact absurd rfl hne
    · rfl
  constructor
  · intro e he
    simp [parse_args, hie, he]
  · intro v0 hv
    constructor
    · intro m hm
      simp [parse_args, hie, hv, hm]
    · intro s hs
      simp [parse_args, hie, hv, hs, errMessage]

/-- Witness for C7: the default-table failure of `parserN` propagates raw,
and a bad option on the command line of `parserVO` exits with status 2. -/
theorem option_value_error_containment_witness :
    parse_args parserN [] ["tok"] Option.none =
      .raised (.optionValue "option -n: invalid integer value: \x27abc\x27") ∧
    parse_args parserVO [] ["--bogus"] Option.none =
      .exited 2 ("no such option: " ++ "--bogus") :=
  ⟨(option_value_error_containment parserN [] ["tok"] (by decide)).1 _ rfl,
   ((option_value_error_containment parserVO [] ["--bogus"] (by decide)).2 _ rfl).2 _ rfl⟩

/-- C7 counterexample to the claim as stated: a string default that fails
its type conversion is not caught inside `parse_args` — the
OptionValueError reaches the caller as a raw exception rather than a
status-2 usage termination. -/
theorem option_value_error_containment_counterexample :
    parse_args parserN [] ["tok"] Option.none =
      .raised (.optionValue "option -n: invalid integer value: \x27abc\x27") ∧
    ∀ status msg, parse_args parserN [] ["tok"] Option.none ≠ .exited status msg := by
  refine ⟨rfl, ?_⟩
  intro status msg h
  rw [show parse_args parserN [] ["tok"] Option.none =
    .raised (.optionValue "option -n: invalid integer value: \x27abc\x27") from rfl] at h
  exact ParseOutcome.noConfusion h

/-! ## Claim theorems: the default table (C5) -/

theorem resolve_one_defaults (st : RState) (pr : String × Nat) :
    (resolve_one st pr).defaults = st.defaults := by
  unfold resolve_one
  rcases h : dget st.opts pr.2 with _ | spec
  · rfl
  · dsimp only
    split
    · unfold dropFromList
      rcases h2 : dget (stripState st pr.1 pr.2 spec).containerOf pr.2 with _ | cid <;>
        simp only [h2] <;> rfl
    · rfl

theorem fold_resolve_defaults (pairs : List (String × Nat)) (st : RState) :
    (pairs.foldl resolve_one st).defaults = st.defaults := by
  induction pairs generalizing st with
  | nil => rfl
  | cons p ps ih => rw [List.foldl_cons, ih, resolve_one_defaults]

/-- C5 (amended): on a successful `add_option`, an option that carries its
own default installs it under its destination key, overwriting any existing
entry; an option with no default leaves an existing entry unchanged and
installs Python `None` only when the key is new; entries under other keys
are never touched. -/
theorem add_option_default_table (st : RState) (handler : ConflictHandler) (cid : Nat)
    (o : OptSpec) (st' : RState) (hok : add_option st handler cid o = .ok st') :
    (∀ d v, o.dest = some d → o.default = some v → dget st'.defaults d = some v) ∧
    (∀ d w, o.dest = some d → o.default = Option.none →
      dget st.defaults d = some w → dget st'.defaults d = some w) ∧
    (∀ d, o.dest = some d → o.default = Option.none →
      dget st.defaults d = Option.none → dget st'.defaults d = some PyVal.none) ∧
    (∀ d, o.dest ≠ some d → dget st'.defaults d = dget st.defaults d) := by
  unfold add_option at hok
  by_cases hc : (conflictPairs st o).isEmpty = false ∧ handler = ConflictHandler.error
  · rw [if_pos hc] at hok
    exact Except.noConfusion hok
  · rw [if_neg hc] at hok
    injection hok with h
    subst h
    have hbase :
        (if handler = ConflictHandler.resolve
          then (conflictPairs st o).foldl resolve_one st else st).defaults =
          st.defaults := by
      split
      · exact fold_resolve_defaults _ _
      · rfl
    refine ⟨?_, ?_, ?_, ?_⟩
    · intro d v hd hv
      simp only [add_option_tail, hd, hv, hbase]
      exact dget_dset_self _ _ _
    · intro d w hd hv hw
      simp only [add_option_tail, hd, hv, hbase, hw]
      simp [hw]
    · intro d hd hv hw
      simp only [add_option_tail, hd, hv, hbase, hw]
      simp [hw, dget_dset_self]
    · intro d hd
      cases hdest : o.dest with
      | none => simp only [add_option_tail, hdest, hbase]
      | some d0 =>
        have hne : d ≠ d0 := fun h => hd (by rw [hdest, h])
        cases hdef : o.default with
        | none =>
          simp only [add_option_tail, hdest, hdef, hbase]
          split
          · exact dget_dset_ne _ _ _ _ hne
          · rfl
        | some v =>
          simp only [add_option_tail, hdest, hdef, hbase]
          exact dget_dset_ne _ _ _ _ hne

/-- Witness for C5 on a concrete two-registration run. -/
theorem add_option_default_table_witness :
    dget stateXY.defaults "x" = some (.int 2) :=
  (add_option_default_table (rstApply (add_option {} .error 0 specX1)) .error 0 specY2
    stateXY rfl).1 "x" (.int 2) rfl rfl

/-- C5 counterexample to the claim as stated: a second option reusing the
destination key `x` and carrying its own default 2 does overwrite the
earlier entry 1. -/
theorem default_table_overwrite_counterexample :
    dget stateXY.defaults "x" = some (.int 2) ∧
    dget stateXY.defaults "x" ≠ some (.int 1) := by
  refine ⟨rfl, ?_⟩
  intro h
  rw [show dget stateXY.defaults "x" = some (.int 2) from rfl] at h
  injection h with h2
  injection h2 with h3
  exact absurd h3 (by decide)

/-! ## Claim theorems: help-column layout (C9) -/

theorem format_option_strings_indent (f : FmtState) (o : POption) :
    format_option_strings (fmtIndent f) o = format_option_strings f o := rfl

theorem foldl_max_map (g : α → Nat) (l : List α) (a : Nat) :
    l.foldl (fun m x => max m (g x)) a = (l.map g).foldl max a := by
  induction l generalizing a with
  | nil => rfl
  | cons x xs ih => simp [ih]

theorem foldl_flatten_max (g : POption → Nat) (groups : List (List POption)) (a : Nat) :
    groups.foldl (fun m gl => gl.foldl (fun m2 o => max m2 (g o)) m) a =
      (groups.flatten.map g).foldl max a := by
  induction groups generalizing a with
  | nil => rfl
  | cons gl gls ih =>
    rw [List.foldl_cons, ih, List.flatten_cons, List.map_append, List.foldl_append,
      show List.foldl (fun m2 o => max m2 (g o)) a gl = (gl.map g).foldl max a from
        foldl_max_map g gl a]

theorem storeMaxLen_eq (f : FmtState) (L : List POption) (G : List (List POption)) :
    storeMaxLen f L G = maxLabelWidth f L G := by
  have h1eq : (fun o => strLen (format_option_strings (fmtIndent f) o) +
        (fmtIndent f).current_indent) =
      (fun o => strLen (format_option_strings f o) +
        (f.current_indent + f.indent_increment)) :=
    funext fun o => rfl
  have h2eq : (fun o => strLen (format_option_strings (fmtIndent (fmtIndent f)) o) +
        (fmtIndent (fmtIndent f)).current_indent) =
      (fun o => strLen (format_option_strings f o) +
        (f.current_indent + 2 * f.indent_increment)) := by
    funext o
    show strLen (format_option_strings (fmtIndent (fmtIndent f)) o) +
      (f.current_indent + f.indent_increment + f.indent_increment) = _
    rw [format_option_strings_indent, format_option_strings_indent]
    omega
  unfold storeMaxLen maxLabelWidth
  rw [List.foldl_append,
    foldl_flatten_max (fun o => strLen (format_option_strings (fmtIndent (fmtIndent f)) o) +
      (fmtIndent (fmtIndent f)).current_indent) G,
    foldl_max_map (fun o => strLen (format_option_strings (fmtIndent f) o) +
      (fmtIndent f).current_indent) L 0,
    h1eq, h2eq]

/-- C9 (amended): the help-column layout facts. At construction both
`help_position` and `max_help_position` are set to
`min(supplied ceiling, max(width - 20, 2 * indent_increment))` — the
effective cap is this clamped value, not the supplied ceiling itself — and
the output width is the hard-coded 180. After the first pass the help
column sits at the maximum indented label width plus 2, capped by the
stored `max_help_position`, and the help text width is the total width
minus the help column with floor 11. In the render pass an option label
shares its first row with the first help line exactly when it fits within
`help_position - current_indent - 2` columns; otherwise the label takes its
own row and the help starts at the help column on the following row. -/
theorem help_column_layout (ii mhp : Nat) (sf w : Int) (f : FmtState)
    (L : List POption) (G : List (List POption)) (defaults : List (String × PyVal))
    (o : POption) (label : String) (hl : (o.help).getD "" ≠ "") :
    (HelpFormatter_init ii mhp sf w).max_help_position =
      (min (mhp : Int) (max (w - 20) (2 * (ii : Int)))).toNat ∧
    (HelpFormatter_init ii mhp sf w).help_position =
      (HelpFormatter_init ii mhp sf w).max_help_position ∧
    (HelpFormatter_init ii mhp sf w).width = 180 ∧
    (store_option_strings f L G).help_position =
      min (maxLabelWidth f L G + 2) f.max_help_position ∧
    (store_option_strings f L G).help_width =
      some (max ((f.width : Int) - min (maxLabelWidth f L G + 2) f.max_help_position)
        11).toNat ∧
    ((strLen label : Int) ≤ (f.help_position : Int) - f.current_indent - 2 →
      format_option f defaults o label =
        spaces f.current_indent ++
          padRight label ((f.help_position : Int) - f.current_indent - 2).toNat ++ "  " ++
          ((wrapText (expand_default defaults f o) ((f.help_width).getD 0)).headD "" ++ "\n") ++
          String.join
            (((wrapText (expand_default defaults f o) ((f.help_width).getD 0)).drop 1).map
              (fun line => spaces f.help_position ++ line ++ "\n"))) ∧
    ((strLen label : Int) > (f.help_position : Int) - f.current_indent - 2 →
      format_option f defaults o label =
        spaces f.current_indent ++ label ++ "\n" ++
          (spaces f.help_position ++
            (wrapText (expand_default defaults f o) ((f.help_width).getD 0)).headD "" ++ "\n") ++
          String.join
            (((wrapText (expand_default defaults f o) ((f.help_width).getD 0)).drop 1).map
              (fun line => spaces f.help_position ++ line ++ "\n"))) := by
  refine ⟨rfl, rfl, rfl, ?_, ?_, ?_, ?_⟩
  · show min (storeMaxLen f L G + 2) f.max_help_position = _
    rw [storeMaxLen_eq]
  · show some (max ((f.width : Int) - min (storeMaxLen f L G + 2) f.max_help_position)
      11).toNat = _
    rw [storeMaxLen_eq]
  · intro hfits
    have hn : ¬((strLen label : Int) > (f.help_position : Int) - f.current_indent - 2) := by
      omega
    simp only [format_option, if_neg hn, hl, if_pos]
    simp [hl]
  · intro hover
    simp only [format_option, if_pos hover]
    simp [hl]

/-- Witness for C9 at the narrow formatter and the `-f FILE, --file=FILE`
option (label width 20): the label does not fit within
`4 - 0 - 2 = 2` columns, so it takes its own row with help at column 4 on
the next row. -/
theorem help_column_layout_witness :
    (store_option_strings fmtNarrow [optFile] []).help_position =
      min (maxLabelWidth fmtNarrow [optFile] [] + 2) fmtNarrow.max_help_position ∧
    format_option fmtNarrow [] { optFile with help := some "read data from FILE" }
        (format_option_strings fmtNarrow optFile) =
      spaces fmtNarrow.current_indent ++ format_option_strings fmtNarrow optFile ++ "\n" ++
        (spaces fmtNarrow.help_position ++
          (wrapText
            (expand_default [] fmtNarrow { optFile with help := some "read data from FILE" })
            ((fmtNarrow.help_width).getD 0)).headD "" ++ "\n") ++
        String.join
          (((wrapText
            (expand_default [] fmtNarrow { optFile with help := some "read data from FILE" })
            ((fmtNarrow.help_width).getD 0)).drop 1).map
            (fun line => spaces fmtNarrow.help_position ++ line ++ "\n")) :=
  ⟨(help_column_layout 2 24 1 10 fmtNarrow [optFile] [] []
      { optFile with help := some "read data from FILE" }
      (format_option_strings fmtNarrow optFile) (by decide)).2.2.2.1,
   (help_column_layout 2 24 1 10 fmtNarrow [optFile] [] []
      { optFile with help := some "read data from FILE" }
      (format_option_strings fmtNarrow optFile) (by decide)).2.2.2.2.2.2 (by decide)⟩

/-- C9 counterexample to the claim as stated: with a formatter constructed
with ceiling 24 but width 10, the maximum indented label width plus 2 is
24, so the claimed formula (cap at the supplied ceiling) predicts a help
column of `min(24, 24) = 24`; the code instead caps at the clamped
`max_help_position = min(24, max(10 - 20, 4)) = 4` and computes 4. -/
theorem help_position_cap_counterexample :
    (store_option_strings fmtNarrow [optFile] []).help_position = 4 ∧
    maxLabelWidth fmtNarrow [optFile] [] + 2 = 24 ∧
    (store_option_strings fmtNarrow [optFile] []).help_position ≠
      min (maxLabelWidth fmtNarrow [optFile] [] + 2) 24 := by
  refine ⟨rfl, by decide, by decide⟩

/-! ## Registration invariants: option-string form lemmas -/

theorem dget_some_mem_keys [DecidableEq κ] (l : List (κ × α)) (k : κ) (v : α)
    (h : dget l k = some v) : k ∈ dkeys l := by
  induction l with
  | nil => simp [dget] at h
  | cons hd t ih =>
    obtain ⟨k0, v0⟩ := hd
    by_cases hk : k0 = k
    · simp [dkeys, hk]
    · simp only [dget, if_neg hk] at h
      show k ∈ k0 :: dkeys t
      exact List.mem_cons_of_mem _ (ih h)

theorem short_not_dashdash (s : String) (h : isShortStr s = true) :
    strStarts s "--" = false := by
  unfold isShortStr at h
  unfold strStarts
  have hd : "--".data = ['-', '-'] := rfl
  rw [hd]
  rcases hs : s.data with _ | ⟨c1, _ | ⟨c2, _ | ⟨c3, t⟩⟩⟩ <;> rw [hs] at h <;>
    simp_all [List.isPrefixOf]
  exact fun hh => h.2 hh.symm

theorem long_dashdash (s : String) (h : isLongStr s = true) :
    strStarts s "--" = true := by
  unfold isLongStr at h
  unfold strStarts
  have hd : "--".data = ['-', '-'] := rfl
  rw [hd]
  rcases hs : s.data with _ | ⟨c1, _ | ⟨c2, _ | ⟨c3, t⟩⟩⟩ <;> rw [hs] at h <;>
    simp_all [List.isPrefixOf]

theorem short_long_exclusive (s : String) (h1 : isShortStr s = true)
    (h2 : isLongStr s = true) : False := by
  unfold isShortStr at h1
  unfold isLongStr at h2
  rcases hs : s.data with _ | ⟨c1, _ | ⟨c2, _ | ⟨c3, t⟩⟩⟩ <;> rw [hs] at h1 h2 <;>
    simp_all

/-! ## Registration invariants: projection lemmas for the resolve helpers -/

theorem stripState_opts (st : RState) (s : String) (c : Nat) (spec : OptSpec) :
    (stripState st s c spec).opts = dset st.opts c (stripSpec s spec) := rfl

theorem stripState_lists (st : RState) (s : String) (c : Nat) (spec : OptSpec) :
    (stripState st s c spec).optionLists = st.optionLists := rfl

theorem stripState_cont (st : RState) (s : String) (c : Nat) (spec : OptSpec) :
    (stripState st s c spec).containerOf = st.containerOf := rfl

theorem stripState_shortTable (st : RState) (s : String) (c : Nat) (spec : OptSpec) :
    (stripState st s c spec).shortTable =
      if strStarts s "--" = true then st.shortTable else derase st.shortTable s := rfl

theorem stripState_longTable (st : RState) (s : String) (c : Nat) (spec : OptSpec) :
    (stripState st s c spec).longTable =
      if strStarts s "--" = true then derase st.longTable s else st.longTable := rfl

theorem stripSpec_shortOpts (s : String) (spec : OptSpec) :
    (stripSpec s spec).shortOpts =
      if strStarts s "--" = true then spec.shortOpts else spec.shortOpts.erase s := by
  unfold stripSpec
  split <;> simp_all

theorem stripSpec_longOpts (s : String) (spec : OptSpec) :
    (stripSpec s spec).longOpts =
      if strStarts s "--" = true then spec.longOpts.erase s else spec.longOpts := by
  unfold stripSpec
  split <;> simp_all

theorem stripSpec_dest (s : String) (spec : OptSpec) :
    (stripSpec s spec).dest = spec.dest := by
  unfold stripSpec
  split <;> rfl

theorem dropFromList_opts (st : RState) (c : Nat) :
    (dropFromList st c).opts = st.opts := by
  unfold dropFromList
  rcases h : dget st.containerOf c with _ | cid <;> simp only [h]

theorem dropFromList_shortTable (st : RState) (c : Nat) :
    (dropFromList st c).shortTable = st.shortTable := by
  unfold dropFromList
  rcases h : dget st.containerOf c with _ | cid <;> simp only [h]

theorem dropFromList_longTable (st : RState) (c : Nat) :
    (dropFromList st c).longTable = st.longTable := by
  unfold dropFromList
  rcases h : dget st.containerOf c with _ | cid <;> simp only [h]

theorem dropFromList_cont (st : RState) (c : Nat) :
    (dropFromList st c).containerOf = st.containerOf := by
  unfold dropFromList
  rcases h : dget st.containerOf c with _ | cid <;> simp only [h]

theorem dropFromList_nextId (st : RState) (c : Nat) :
    (dropFromList st c).nextId = st.nextId := by
  unfold dropFromList
  rcases h : dget st.containerOf c with _ | cid <;> simp only [h]

theorem dropFromList_nextCid (st : RState) (c : Nat) :
    (dropFromList st c).nextCid = st.nextCid := by
  unfold dropFromList
  rcases h : dget st.containerOf c with _ | cid <;> simp only [h]

theorem resolve_one_nextId (st : RState) (p : String × Nat) :
    (resolve_one st p).nextId = st.nextId := by
  unfold resolve_one
  rcases h : dget st.opts p.2 with _ | spec
  · rfl
  · dsimp only
    split
    · rw [dropFromList_nextId]
      rfl
    · rfl

theorem fold_resolve_nextId (pairs : List (String × Nat)) (st : RState) :
    (pairs.foldl resolve_one st).nextId = st.nextId := by
  induction pairs generalizing st with
  | nil => rfl
  | cons p ps ih => rw [List.foldl_cons, ih, resolve_one_nextId]

theorem mem_dkeys_dset_self [DecidableEq κ] (l : List (κ × α)) (k : κ) (v : α) :
    k ∈ dkeys (dset l k v) := by
  rw [dkeys_dset]
  by_cases hm : k ∈ dkeys l <;> simp [hm]

theorem mem_dkeys_dset_of_mem [DecidableEq κ] (l : List (κ × α)) (k k2 : κ) (v : α)
    (h : k2 ∈ dkeys l) : k2 ∈ dkeys (dset l k v) := by
  rw [dkeys_dset]
  by_cases hm : k ∈ dkeys l <;> simp [hm, h]

/-! ## Invariant preservation: the strip step -/

theorem strip_opts_dget (st : RState) (s : String) (c : Nat) (spec : OptSpec)
    (hop : dget st.opts c = some spec) (id : Nat) :
    dget (stripState st s c spec).opts id =
      if id = c then some (stripSpec s spec) else dget st.opts id := by
  rw [stripState_opts]
  by_cases hic : id = c
  · subst hic
    simp [dget_dset_self]
  · simp [hic, dget_dset_ne st.opts c id _ hic]

theorem strip_short_dget (st : RState) (s : String) (c : Nat) (spec : OptSpec)
    (h : WF st) (x : String) :
    dget (stripState st s c spec).shortTable x =
      if strStarts s "--" = false ∧ x = s then Option.none else dget st.shortTable x := by
  rw [stripState_shortTable]
  by_cases hb : strStarts s "--" = true
  · rw [if_pos hb, if_neg (by simp [hb])]
  · have hb' : strStarts s "--" = false := by
      cases hbv : strStarts s "--"
      · rfl
      · exact absurd hbv hb
    rw [if_neg hb]
    by_cases hx : x = s
    · subst hx
      rw [if_pos ⟨hb', rfl⟩]
      exact dget_derase_self _ _ h.shortNodup
    · rw [if_neg (by simp [hx])]
      exact dget_derase_ne _ _ _ hx

theorem strip_long_dget (st : RState) (s : String) (c : Nat) (spec : OptSpec)
    (h : WF st) (x : String) :
    dget (stripState st s c spec).longTable x =
      if strStarts s "--" = true ∧ x = s then Option.none else dget st.longTable x := by
  rw [stripState_longTable]
  by_cases hb : strStarts s "--" = true
  · rw [if_pos hb]
    by_cases hx : x = s
    · subst hx
      rw [if_pos ⟨hb, rfl⟩]
      exact dget_derase_self _ _ h.longNodup
    · rw [if_neg (by simp [hx])]
      exact dget_derase_ne _ _ _ hx
  · rw [if_neg hb, if_neg (by simp [hb])]

theorem strip_spec_sub (st : RState) (s : String) (c : Nat) (spec : OptSpec)
    (hop : dget st.opts c = some spec) (id : Nat) (spec2 : OptSpec)
    (h2 : dget (stripState st s c spec).opts id = some spec2) :
    ∃ spec0, dget st.opts id = some spec0 ∧
      spec2.shortOpts.Sublist spec0.shortOpts ∧ spec2.longOpts.Sublist spec0.longOpts := by
  rw [strip_opts_dget st s c spec hop id] at h2
  by_cases hic : id = c
  · rw [if_pos hic] at h2
    injection h2 with h2
    subst h2
    subst hic
    refine ⟨spec, hop, ?_, ?_⟩
    · rw [stripSpec_shortOpts]
      split
      · exact List.Sublist.refl _
      · exact List.erase_sublist ..
    · rw [stripSpec_longOpts]
      split
      · exact List.erase_sublist ..
      · exact List.Sublist.refl _
  · rw [if_neg hic] at h2
    exact ⟨spec2, h2, List.Sublist.refl _, List.Sublist.refl _⟩

theorem strip_shortKeys (st : RState) (s : String) (c : Nat) (spec : OptSpec)
    (h : WF st) (hop : dget st.opts c = some spec) (x : String) (id : Nat)
    (hx : dget (stripState st s c spec).shortTable x = some id) :
    ∃ spec2, dget (stripState st s c spec).opts id = some spec2 ∧ x ∈ spec2.shortOpts := by
  rw [strip_short_dget st s c spec h x] at hx
  by_cases hcond : strStarts s "--" = false ∧ x = s
  · rw [if_pos hcond] at hx
    exact absurd hx (by simp)
  · rw [if_neg hcond] at hx
    obtain ⟨spec0, hs0, hmem⟩ := h.shortKeys x id hx
    rw [strip_opts_dget st s c spec hop id]
    by_cases hic : id = c
    · subst hic
      rw [if_pos rfl]
      have hspec0 : spec0 = spec := by
        rw [hop] at hs0
        injection hs0 with hh
        exact hh.symm
      rw [hspec0] at hmem
      refine ⟨stripSpec s spec, rfl, ?_⟩
      rw [stripSpec_shortOpts]
      by_cases hb : strStarts s "--" = true
      · rw [if_pos hb]
        exact hmem
      · have hb' : strStarts s "--" = false := by
          cases hbv : strStarts s "--"
          · rfl
          · exact absurd hbv hb
        rw [if_neg hb]
        have hxs : x ≠ s := fun he => hcond ⟨hb', he⟩
        exact (List.mem_erase_of_ne hxs).mpr hmem
    · rw [if_neg hic]
      exact ⟨spec0, hs0, hmem⟩

theorem strip_longKeys (st : RState) (s : String) (c : Nat) (spec : OptSpec)
    (h : WF st) (hop : dget st.opts c = some spec) (x : String) (id : Nat)
    (hx : dget (stripState st s c spec).longTable x = some id) :
    ∃ spec2, dget (stripState st s c spec).opts id = some spec2 ∧ x ∈ spec2.longOpts := by
  rw [strip_long_dget st s c spec h x] at hx
  by_cases hcond : strStarts s "--" = true ∧ x = s
  · rw [if_pos hcond] at hx
    exact absurd hx (by simp)
  · rw [if_neg hcond] at hx
    obtain ⟨spec0, hs0, hmem⟩ := h.longKeys x id hx
    rw [strip_opts_dget st s c spec hop id]
    by_cases hic : id = c
    · subst hic
      rw [if_pos rfl]
      have hspec0 : spec0 = spec := by
        rw [hop] at hs0
        injection hs0 with hh
        exact hh.symm
      rw [hspec0] at hmem
      refine ⟨stripSpec s spec, rfl, ?_⟩
      rw [stripSpec_longOpts]
      by_cases hb : strStarts s "--" = true
      · rw [if_pos hb]
        have hxs : x ≠ s := fun he => hcond ⟨hb, he⟩
        exact (List.mem_erase_of_ne hxs).mpr hmem
      · rw [if_neg hb]
        exact hmem
    · rw [if_neg hic]
      exact ⟨spec0, hs0, hmem⟩

theorem wf_of_core (st : RState) (hc : WFCore st)
    (hng : ∀ id spec, dget st.opts id = some spec →
      spec.shortOpts = [] → spec.longOpts = [] →
      ∀ cid l, dget st.optionLists cid = some l → id ∉ l) : WF st :=
  ⟨hc.shortNodup, hc.longNodup, hc.optsNodup, hc.listsNodup, hc.listNodup,
   hc.shortKeys, hc.longKeys, hc.specShortNodup, hc.specLongNodup,
   hc.specShortForm, hc.specLongForm, hc.tablesInList, hc.listedCont,
   hc.contValid, hng, hc.freshOpts, hc.freshShort, hc.freshLong,
   hc.freshLists, hc.freshCids⟩

theorem wf_strip_core (st : RState) (s : String) (c : Nat) (spec : OptSpec)
    (h : WF st) (hop : dget st.opts c = some spec) :
    WFCore (stripState st s c spec) := by
  refine ⟨?_, ?_, ?_, ?_, ?_, ?_, ?_, ?_, ?_, ?_, ?_, ?_, ?_, ?_, ?_, ?_, ?_, ?_, ?_⟩
  · rw [stripState_shortTable]
    split
    · exact h.shortNodup
    · exact derase_keys_nodup _ _ h.shortNodup
  · rw [stripState_longTable]
    split
    · exact derase_keys_nodup _ _ h.longNodup
    · exact h.longNodup
  · rw [stripState_opts]
    exact dset_keys_nodup _ _ _ h.optsNodup
  · exact h.listsNodup
  · exact fun cid l hl => h.listNodup cid l hl
  · exact fun x id hx => strip_shortKeys st s c spec h hop x id hx
  · exact fun x id hx => strip_longKeys st s c spec h hop x id hx
  · intro id spec2 h2
    obtain ⟨spec0, hs0, hsub, _⟩ := strip_spec_sub st s c spec hop id spec2 h2
    exact hsub.nodup (h.specShortNodup id spec0 hs0)
  · intro id spec2 h2
    obtain ⟨spec0, hs0, _, hsub⟩ := strip_spec_sub st s c spec hop id spec2 h2
    exact hsub.nodup (h.specLongNodup id spec0 hs0)
  · intro id spec2 h2 x hx
    obtain ⟨spec0, hs0, hsub, _⟩ := strip_spec_sub st s c spec hop id spec2 h2
    exact h.specShortForm id spec0 hs0 x (hsub.subset hx)
  · intro id spec2 h2 x hx
    obtain ⟨spec0, hs0, _, hsub⟩ := strip_spec_sub st s c spec hop id spec2 h2
    exact h.specLongForm id spec0 hs0 x (hsub.subset hx)
  · intro id hid
    rcases hid with ⟨s2, hs2⟩ | ⟨s2, hs2⟩
    · rw [strip_short_dget st s c spec h s2] at hs2
      by_cases hcond : strStarts s "--" = false ∧ s2 = s
      · rw [if_pos hcond] at hs2
        exact absurd hs2 (by simp)
      · rw [if_neg hcond] at hs2
        exact h.tablesInList id (Or.inl ⟨s2, hs2⟩)
    · rw [strip_long_dget st s c spec h s2] at hs2
      by_cases hcond : strStarts s "--" = true ∧ s2 = s
      · rw [if_pos hcond] at hs2
        exact absurd hs2 (by simp)
      · rw [if_neg hcond] at hs2
        exact h.tablesInList id (Or.inr ⟨s2, hs2⟩)
  · exact fun id cid l hl hm => h.listedCont id cid l hl hm
  · exact fun id cid hc => h.contValid id cid hc
  · intro id hid
    rw [stripState_opts, dkeys_dset, if_pos (dget_some_mem_keys _ _ _ hop)] at hid
    exact h.freshOpts id hid
  · intro x id hx
    rw [strip_short_dget st s c spec h x] at hx
    by_cases hcond : strStarts s "--" = false ∧ x = s
    · rw [if_pos hcond] at hx
      exact absurd hx (by simp)
    · rw [if_neg hcond] at hx
      exact h.freshShort x id hx
  · intro x id hx
    rw [strip_long_dget st s c spec h x] at hx
    by_cases hcond : strStarts s "--" = true ∧ x = s
    · rw [if_pos hcond] at hx
      exact absurd hx (by simp)
    · rw [if_neg hcond] at hx
      exact h.freshLong x id hx
  · exact fun cid l hl => h.freshLists cid l hl
  · exact fun cid hc => h.freshCids cid hc

theorem wf_stripState_of (st : RState) (s : String) (c : Nat) (spec : OptSpec)
    (h : WF st) (hop : dget st.opts c = some spec)
    (hng : (stripSpec s spec).shortOpts = [] → (stripSpec s spec).longOpts = [] →
      ∀ cid l, dget st.optionLists cid = some l → c ∉ l) :
    WF (stripState st s c spec) := by
  refine wf_of_core _ (wf_strip_core st s c spec h hop) ?_
  intro id spec2 h2 hse hle cid l hl
  have h2' : dget (stripState st s c spec).opts id = some spec2 := h2
  rw [strip_opts_dget st s c spec hop id] at h2'
  by_cases hic : id = c
  · rw [if_pos hic] at h2'
    injection h2' with h2'
    subst hic
    rw [← h2'] at hse hle
    exact hng hse hle cid l hl
  · rw [if_neg hic] at h2'
    exact h.noGhost id spec2 h2' hse hle cid l hl

theorem strip_no_entry_c (st : RState) (s : String) (c : Nat) (spec : OptSpec)
    (h : WF st) (hop : dget st.opts c = some spec)
    (hse : (stripSpec s spec).shortOpts = [])
    (hle : (stripSpec s spec).longOpts = []) (id : Nat)
    (hid : (∃ x, dget (stripState st s c spec).shortTable x = some id) ∨
           (∃ x, dget (stripState st s c spec).longTable x = some id)) : id ≠ c := by
  intro he
  rcases hid with ⟨x, hx⟩ | ⟨x, hx⟩
  · obtain ⟨spec2, h2, hm⟩ := strip_shortKeys st s c spec h hop x id hx
    rw [strip_opts_dget st s c spec hop id, if_pos he] at h2
    injection h2 with h2
    rw [← h2, hse] at hm
    exact absurd hm (List.not_mem_nil x)
  · obtain ⟨spec2, h2, hm⟩ := strip_longKeys st s c spec h hop x id hx
    rw [strip_opts_dget st s c spec hop id, if_pos he] at h2
    injection h2 with h2
    rw [← h2, hle] at hm
    exact absurd hm (List.not_mem_nil x)

theorem wf_strip_drop (st : RState) (s : String) (c : Nat) (spec : OptSpec)
    (h : WF st) (hop : dget st.opts c = some spec)
    (hse : (stripSpec s spec).shortOpts = [])
    (hle : (stripSpec s spec).longOpts = []) :
    WF (dropFromList (stripState st s c spec) c) := by
  have core2 := wf_strip_core st s c spec h hop
  unfold dropFromList
  rw [stripState_cont]
  rcases hcc : dget st.containerOf c with _ | cid1
  · exact wf_stripState_of st s c spec h hop (fun _ _ cid l hl hm => by
      have hx := h.listedCont c cid l hl hm
      rw [hcc] at hx
      exact Option.noConfusion hx)
  · have hl2 : (stripState st s c spec).optionLists = st.optionLists := rfl
    rw [hl2]
    refine ⟨core2.shortNodup, core2.longNodup, core2.optsNodup, ?_, ?_,
      core2.shortKeys, core2.longKeys, core2.specShortNodup, core2.specLongNodup,
      core2.specShortForm, core2.specLongForm, ?_, ?_, ?_, ?_,
      core2.freshOpts, core2.freshShort, core2.freshLong, ?_, ?_⟩
    · exact dset_keys_nodup _ _ _ h.listsNodup
    · intro cid l hl
      by_cases hc2 : cid = cid1
      · subst hc2
        rw [dget_dset_self] at hl
        injection hl with hl
        rcases hy : dget st.optionLists cid with _ | l0 <;> rw [hy] at hl
        · simp at hl
          subst hl
          exact List.nodup_nil
        · rw [← hl]
          exact (h.listNodup cid l0 hy).erase c
      · rw [dget_dset_ne _ _ _ _ hc2] at hl
        exact h.listNodup cid l hl
    · intro id hid
      have hidne : id ≠ c := strip_no_entry_c st s c spec h hop hse hle id hid
      obtain ⟨cid0, l, hcont, hl, hm⟩ := core2.tablesInList id hid
      have hl' : dget st.optionLists cid0 = some l := hl
      by_cases hc0 : cid0 = cid1
      · subst hc0
        refine ⟨cid0, l.erase c, hcont, ?_, (List.mem_erase_of_ne hidne).mpr hm⟩
        rw [dget_dset_self, hl']
        rfl
      · exact ⟨cid0, l, hcont, by rw [dget_dset_ne _ _ _ _ hc0]; exact hl', hm⟩
    · intro id cid l hl hm
      by_cases hc2 : cid = cid1
      · subst hc2
        rw [dget_dset_self] at hl
        injection hl with hl
        rcases hy : dget st.optionLists cid with _ | l0 <;> rw [hy] at hl
        · simp at hl
          subst hl
          exact absurd hm (List.not_mem_nil id)
        · rw [← hl] at hm
          exact h.listedCont id cid l0 hy (List.mem_of_mem_erase hm)
      · rw [dget_dset_ne _ _ _ _ hc2] at hl
        exact h.listedCont id cid l hl hm
    · intro id cid hcv
      exact mem_dkeys_dset_of_mem _ _ _ _ (h.contValid id cid hcv)
    · intro id spec2 h2 hse2 hle2 cid l hl hm
      have h2' : dget (stripState st s c spec).opts id = some spec2 := h2
      rw [strip_opts_dget st s c spec hop id] at h2'
      by_cases hic : id = c
      · subst hic
        by_cases hc2 : cid = cid1
        · subst hc2
          rw [dget_dset_self] at hl
          injection hl with hl
          rcases hy : dget st.optionLists cid with _ | l0 <;> rw [hy] at hl
          · simp at hl
            subst hl
            exact absurd hm (List.not_mem_nil id)
          · rw [← hl] at hm
            exact ((h.listNodup cid l0 hy).mem_erase_iff.mp hm).1 rfl
        · rw [dget_dset_ne _ _ _ _ hc2] at hl
          have hx := h.listedCont id cid l hl hm
          rw [hcc] at hx
          injection hx with hx
          exact hc2 hx.symm
      · rw [if_neg hic] at h2'
        have hng := h.noGhost id spec2 h2' hse2 hle2
        by_cases hc2 : cid = cid1
        · subst hc2
          rw [dget_dset_self] at hl
          injection hl with hl
          rcases hy : dget st.optionLists cid with _ | l0 <;> rw [hy] at hl
          · simp at hl
            subst hl
            exact absurd hm (List.not_mem_nil id)
          · rw [← hl] at hm
            exact hng cid l0 hy (List.mem_of_mem_erase hm)
        · rw [dget_dset_ne _ _ _ _ hc2] at hl
          exact hng cid l hl hm
    · intro cid l hl id hm
      by_cases hc2 : cid = cid1
      · subst hc2
        rw [dget_dset_self] at hl
        injection hl with hl
        rcases hy : dget st.optionLists cid with _ | l0 <;> rw [hy] at hl
        · simp at hl
          subst hl
          exact absurd hm (List.not_mem_nil id)
        · rw [← hl] at hm
          exact h.freshLists cid l0 hy id (List.mem_of_mem_erase hm)
      · rw [dget_dset_ne _ _ _ _ hc2] at hl
        exact h.freshLists cid l hl id hm
    · intro cid hck
      rw [dkeys_dset, if_pos (h.contValid c cid1 hcc)] at hck
      exact h.freshCids cid hck

theorem wf_resolve_one (st : RState) (p : String × Nat) (h : WF st) :
    WF (resolve_one st p) := by
  unfold resolve_one
  rcases hop : dget st.opts p.2 with _ | spec
  · exact h
  · dsimp only
    by_cases hemp : ((stripSpec p.1 spec).shortOpts.isEmpty &&
        (stripSpec p.1 spec).longOpts.isEmpty) = true
    · rw [if_pos hemp]
      rw [Bool.and_eq_true] at hemp
      exact wf_strip_drop st p.1 p.2 spec h hop
        (by simpa using hemp.1) (by simpa using hemp.2)
    · rw [if_neg hemp]
      refine wf_stripState_of st p.1 p.2 spec h hop ?_
      intro hse hle
      exact absurd (by simp [hse, hle]) hemp

theorem wf_fold_resolve (pairs : List (String × Nat)) (st : RState) (h : WF st) :
    WF (pairs.foldl resolve_one st) := by
  induction pairs generalizing st with
  | nil => exact h
  | cons p ps ih => exact ih _ (wf_resolve_one st p h)

/-! ## Invariant preservation: registration, groups, removal -/

theorem dkeys_append (l1 l2 : List (κ × α)) :
    dkeys (l1 ++ l2) = dkeys l1 ++ dkeys l2 := by
  simp [dkeys]

theorem fresh_no_opts (st : RState) (h : WF st) :
    dget st.opts st.nextId = Option.none := by
  rcases hx : dget st.opts st.nextId with _ | v
  · rfl
  · exact absurd (h.freshOpts _ (dget_some_mem_keys _ _ _ hx)) (lt_irrefl _)

theorem fresh_no_short (st : RState) (h : WF st) (x : String) :
    dget st.shortTable x ≠ some st.nextId := by
  intro hx
  exact absurd (h.freshShort x _ hx) (lt_irrefl _)

theorem fresh_no_long (st : RState) (h : WF st) (x : String) :
    dget st.longTable x ≠ some st.nextId := by
  intro hx
  exact absurd (h.freshLong x _ hx) (lt_irrefl _)

theorem fresh_not_in_list (st : RState) (h : WF st) (cid : Nat) (l : List Nat)
    (hl : dget st.optionLists cid = some l) : st.nextId ∉ l := by
  intro hm
  exact absurd (h.freshLists cid l hl _ hm) (lt_irrefl _)

theorem validSpec_parts (o : OptSpec) (hv : validSpec o = true) :
    (∀ x ∈ o.shortOpts, isShortStr x = true) ∧
    (∀ x ∈ o.longOpts, isLongStr x = true) ∧
    ¬(o.shortOpts = [] ∧ o.longOpts = []) ∧
    o.shortOpts.Nodup ∧ o.longOpts.Nodup := by
  unfold validSpec at hv
  rw [Bool.and_eq_true, Bool.and_eq_true, Bool.and_eq_true, Bool.and_eq_true] at hv
  obtain ⟨⟨⟨⟨hsf, hlf⟩, hne⟩, hsn⟩, hln⟩ := hv
  refine ⟨fun x hx => List.all_eq_true.mp hsf x hx,
          fun x hx => List.all_eq_true.mp hlf x hx,
          ?_, of_decide_eq_true hsn, of_decide_eq_true hln⟩
  rintro ⟨hse, hle⟩
  rw [hse, hle] at hne
  simp at hne

theorem add_tail_opts (st1 : RState) (cid : Nat) (o : OptSpec) :
    (add_option_tail st1 cid o).opts = st1.opts ++ [(st1.nextId, o)] := rfl

theorem add_tail_cont (st1 : RState) (cid : Nat) (o : OptSpec) :
    (add_option_tail st1 cid o).containerOf = dset st1.containerOf st1.nextId cid := rfl

theorem add_tail_lists (st1 : RState) (cid : Nat) (o : OptSpec) :
    (add_option_tail st1 cid o).optionLists =
      dset st1.optionLists cid (((dget st1.optionLists cid).getD []) ++ [st1.nextId]) := rfl

theorem add_tail_short (st1 : RState) (cid : Nat) (o : OptSpec) :
    (add_option_tail st1 cid o).shortTable =
      o.shortOpts.foldl (fun t s => dset t s st1.nextId) st1.shortTable := rfl

theorem add_tail_long (st1 : RState) (cid : Nat) (o : OptSpec) :
    (add_option_tail st1 cid o).longTable =
      o.longOpts.foldl (fun t s => dset t s st1.nextId) st1.longTable := rfl

theorem add_tail_nextId (st1 : RState) (cid : Nat) (o : OptSpec) :
    (add_option_tail st1 cid o).nextId = st1.nextId + 1 := rfl

theorem add_tail_ncid (st1 : RState) (cid : Nat) (o : OptSpec) :
    (add_option_tail st1 cid o).nextCid = st1.nextCid := rfl

theorem wf_add_option_tail (st1 : RState) (cid : Nat) (o : OptSpec)
    (h : WF st1) (hv : validSpec o = true) (hcid : cid ∈ dkeys st1.optionLists) :
    WF (add_option_tail st1 cid o) := by
  obtain ⟨hsf, hlf, hne, hsn, hln⟩ := validSpec_parts o hv
  have hopn : dget st1.opts st1.nextId = Option.none := fresh_no_opts st1 h
  have hopts : ∀ id, dget (add_option_tail st1 cid o).opts id =
      if id = st1.nextId then some o else dget st1.opts id := by
    intro id
    rw [add_tail_opts, dget_append]
    by_cases hid : id = st1.nextId
    · subst hid
      rw [hopn]
      simp [dget]
    · rcases hx : dget st1.opts id with _ | v
      · simp [hx, dget, hid, Ne.symm hid]
      · simp [hx, hid]
  have hshort : ∀ x, dget (add_option_tail st1 cid o).shortTable x =
      if x ∈ o.shortOpts then some st1.nextId else dget st1.shortTable x := by
    intro x
    rw [add_tail_short]
    exact dget_fold_dset _ _ _ _
  have hlong : ∀ x, dget (add_option_tail st1 cid o).longTable x =
      if x ∈ o.longOpts then some st1.nextId else dget st1.longTable x := by
    intro x
    rw [add_tail_long]
    exact dget_fold_dset _ _ _ _
  have hlists : ∀ c2, dget (add_option_tail st1 cid o).optionLists c2 =
      if c2 = cid then some (((dget st1.optionLists cid).getD []) ++ [st1.nextId])
      else dget st1.optionLists c2 := by
    intro c2
    rw [add_tail_lists]
    by_cases hc : c2 = cid
    · subst hc
      rw [if_pos rfl, dget_dset_self]
    · rw [if_neg hc, dget_dset_ne _ _ _ _ hc]
  have hcont : ∀ id, dget (add_option_tail st1 cid o).containerOf id =
      if id = st1.nextId then some cid else dget st1.containerOf id := by
    intro id
    rw [add_tail_cont]
    by_cases hid : id = st1.nextId
    · subst hid
      rw [if_pos rfl, dget_dset_self]
    · rw [if_neg hid, dget_dset_ne _ _ _ _ hid]
  have holn : ((dget st1.optionLists cid).getD []).Nodup := by
    rcases hx : dget st1.optionLists cid with _ | l
    · simp
    · simpa using h.listNodup cid l hx
  have holf : ∀ id ∈ (dget st1.optionLists cid).getD [], id < st1.nextId := by
    rcases hx : dget st1.optionLists cid with _ | l
    · simp
    · simpa using fun id hm => h.freshLists cid l hx id hm
  have holc : ∀ id ∈ (dget st1.optionLists cid).getD [],
      dget st1.containerOf id = some cid := by
    rcases hx : dget st1.optionLists cid with _ | l
    · simp
    · simpa using fun id hm => h.listedCont id cid l hx hm
  refine ⟨?_, ?_, ?_, ?_, ?_, ?_, ?_, ?_, ?_, ?_, ?_, ?_, ?_, ?_, ?_, ?_, ?_, ?_, ?_, ?_⟩
  · rw [add_tail_short]
    exact fold_dset_keys_nodup _ _ _ h.shortNodup
  · rw [add_tail_long]
    exact fold_dset_keys_nodup _ _ _ h.longNodup
  · rw [add_tail_opts, dkeys_append]
    refine List.Nodup.append h.optsNodup (by simp [dkeys]) ?_
    intro a ha hb
    simp [dkeys] at hb
    subst hb
    exact absurd (h.freshOpts _ ha) (lt_irrefl _)
  · rw [add_tail_lists]
    exact dset_keys_nodup _ _ _ h.listsNodup
  · intro c2 l hl
    rw [hlists c2] at hl
    by_cases hc : c2 = cid
    · rw [if_pos hc] at hl
      injection hl with hl
      subst hl
      refine List.Nodup.append holn (List.nodup_singleton _) ?_
      intro a ha hb
      simp at hb
      subst hb
      exact absurd (holf _ ha) (lt_irrefl _)
    · rw [if_neg hc] at hl
      exact h.listNodup c2 l hl
  · intro s id hsid
    rw [hshort s] at hsid
    by_cases hm : s ∈ o.shortOpts
    · rw [if_pos hm] at hsid
      injection hsid with hsid
      subst hsid
      exact ⟨o, by rw [hopts, if_pos rfl], hm⟩
    · rw [if_neg hm] at hsid
      obtain ⟨spec, hsp, hmem⟩ := h.shortKeys s id hsid
      have hidn : id ≠ st1.nextId := by
        intro hid
        subst hid
        rw [hopn] at hsp
        exact Option.noConfusion hsp
      exact ⟨spec, by rw [hopts, if_neg hidn]; exact hsp, hmem⟩
  · intro s id hsid
    rw [hlong s] at hsid
    by_cases hm : s ∈ o.longOpts
    · rw [if_pos hm] at hsid
      injection hsid with hsid
      subst hsid
      exact ⟨o, by rw [hopts, if_pos rfl], hm⟩
    · rw [if_neg hm] at hsid
      obtain ⟨spec, hsp, hmem⟩ := h.longKeys s id hsid
      have hidn : id ≠ st1.nextId := by
        intro hid
        subst hid
        rw [hopn] at hsp
        exact Option.noConfusion hsp
      exact ⟨spec, by rw [hopts, if_neg hidn]; exact hsp, hmem⟩
  · intro id spec hsp
    rw [hopts] at hsp
    by_cases hid : id = st1.nextId
    · rw [if_pos hid] at hsp
      injection hsp with hsp
      subst hsp
      exact hsn
    · rw [if_neg hid] at hsp
      exact h.specShortNodup id spec hsp
  · intro id spec hsp
    rw [hopts] at hsp
    by_cases hid : id = st1.nextId
    · rw [if_pos hid] at hsp
      injection hsp with hsp
      subst hsp
      exact hln
    · rw [if_neg hid] at hsp
      exact h.specLongNodup id spec hsp
  · intro id spec hsp
    rw [hopts] at hsp
    by_cases hid : id = st1.nextId
    · rw [if_pos hid] at hsp
      injection hsp with hsp
      subst hsp
      exact hsf
    · rw [if_neg hid] at hsp
      exact h.specShortForm id spec hsp
  · intro id spec hsp
    rw [hopts] at hsp
    by_cases hid : id = st1.nextId
    · rw [if_pos hid] at hsp
      injection hsp with hsp
      subst hsp
      exact hlf
    · rw [if_neg hid] at hsp
      exact h.specLongForm id spec hsp
  · intro id hex
    by_cases hid : id = st1.nextId
    · subst hid
      refine ⟨cid, ((dget st1.optionLists cid).getD []) ++ [st1.nextId], ?_, ?_, ?_⟩
      · rw [hcont, if_pos rfl]
      · rw [hlists, if_pos rfl]
      · exact List.mem_append_right _ (List.mem_singleton_self _)
    · have hex1 : (∃ s, dget st1.shortTable s = some id) ∨
          (∃ s, dget st1.longTable s = some id) := by
        rcases hex with ⟨s, hs⟩ | ⟨s, hs⟩
        · rw [hshort] at hs
          by_cases hm : s ∈ o.shortOpts
          · rw [if_pos hm] at hs
            injection hs with hs
            exact absurd hs.symm hid
          · rw [if_neg hm] at hs
            exact Or.inl ⟨s, hs⟩
        · rw [hlong] at hs
          by_cases hm : s ∈ o.longOpts
          · rw [if_pos hm] at hs
            injection hs with hs
            exact absurd hs.symm hid
          · rw [if_neg hm] at hs
            exact Or.inr ⟨s, hs⟩
      obtain ⟨cid0, l0, hc0, hl0, hm0⟩ := h.tablesInList id hex1
      by_cases hcc : cid0 = cid
      · subst hcc
        refine ⟨cid0, ((dget st1.optionLists cid0).getD []) ++ [st1.nextId], ?_, ?_, ?_⟩
        · rw [hcont, if_neg hid]
          exact hc0
        · rw [hlists, if_pos rfl]
        · refine List.mem_append_left _ ?_
          rw [hl0]
          simpa using hm0
      · refine ⟨cid0, l0, ?_, ?_, hm0⟩
        · rw [hcont, if_neg hid]
          exact hc0
        · rw [hlists, if_neg hcc]
          exact hl0
  · intro id c2 l hl hm
    rw [hlists] at hl
    by_cases hc : c2 = cid
    · subst hc
      rw [if_pos rfl] at hl
      injection hl with hl
      subst hl
      rcases List.mem_append.mp hm with hm1 | hm1
      · have hidn : id ≠ st1.nextId := by
          intro he
          subst he
          exact absurd (holf _ hm1) (lt_irrefl _)
        rw [hcont, if_neg hidn]
        exact holc id hm1
      · simp at hm1
        subst hm1
        rw [hcont, if_pos rfl]
    · rw [if_neg hc] at hl
      have hidn : id ≠ st1.nextId := by
        intro he
        subst he
        exact absurd (h.freshLists c2 l hl _ hm) (lt_irrefl _)
      rw [hcont, if_neg hidn]
      exact h.listedCont id c2 l hl hm
  · intro id c2 hc2
    rw [hcont] at hc2
    rw [add_tail_lists]
    by_cases hid : id = st1.nextId
    · rw [if_pos hid] at hc2
      injection hc2 with hc2
      subst hc2
      exact mem_dkeys_dset_self _ _ _
    · rw [if_neg hid] at hc2
      exact mem_dkeys_dset_of_mem _ _ _ _ (h.contValid id c2 hc2)
  · intro id spec hsp hse hle c2 l hl hm
    rw [hopts] at hsp
    by_cases hid : id = st1.nextId
    · rw [if_pos hid] at hsp
      injection hsp with hsp
      subst hsp
      exact hne ⟨hse, hle⟩
    · rw [if_neg hid] at hsp
      rw [hlists] at hl
      by_cases hc : c2 = cid
      · rw [if_pos hc] at hl
        injection hl with hl
        subst hl
        rcases List.mem_append.mp hm with hm1 | hm1
        · rcases hx : dget st1.optionLists cid with _ | l0
          · rw [hx] at hm1
            simp at hm1
          · rw [hx] at hm1
            simp at hm1
            exact h.noGhost id spec hsp hse hle cid l0 hx hm1
        · simp at hm1
          exact hid hm1
      · rw [if_neg hc] at hl
        exact h.noGhost id spec hsp hse hle c2 l hl hm
  · intro id hm
    rw [add_tail_opts, dkeys_append] at hm
    rw [add_tail_nextId]
    rcases List.mem_append.mp hm with hm1 | hm1
    · exact Nat.lt_succ_of_lt (h.freshOpts id hm1)
    · simp [dkeys] at hm1
      subst hm1
      exact Nat.lt_succ_self _
  · intro s id hs
    rw [hshort] at hs
    rw [add_tail_nextId]
    by_cases hm : s ∈ o.shortOpts
    · rw [if_pos hm] at hs
      injection hs with hs
      subst hs
      exact Nat.lt_succ_self _
    · rw [if_neg hm] at hs
      exact Nat.lt_succ_of_lt (h.freshShort s id hs)
  · intro s id hs
    rw [hlong] at hs
    rw [add_tail_nextId]
    by_cases hm : s ∈ o.longOpts
    · rw [if_pos hm] at hs
      injection hs with hs
      subst hs
      exact Nat.lt_succ_self _
    · rw [if_neg hm] at hs
      exact Nat.lt_succ_of_lt (h.freshLong s id hs)
  · intro c2 l hl id hm
    rw [hlists] at hl
    rw [add_tail_nextId]
    by_cases hc : c2 = cid
    · rw [if_pos hc] at hl
      injection hl with hl
      subst hl
      rcases List.mem_append.mp hm with hm1 | hm1
      · exact Nat.lt_succ_of_lt (holf _ hm1)
      · simp at hm1
        subst hm1
        exact Nat.lt_succ_self _
    · rw [if_neg hc] at hl
      exact Nat.lt_succ_of_lt (h.freshLists c2 l hl id hm)
  · intro c2 hm
    rw [add_tail_lists, dkeys_dset, if_pos hcid] at hm
    rw [add_tail_ncid]
    exact h.freshCids c2 hm

theorem dget_singleton [DecidableEq κ] (k0 k : κ) (v : α) :
    dget [(k0, v)] k = if k0 = k then some v else Option.none := rfl

theorem dget_append_singleton [DecidableEq κ] (l : List (κ × α)) (k0 k : κ) (v : α)
    (hfresh : dget l k0 = Option.none) :
    dget (l ++ [(k0, v)]) k = if k = k0 then some v else dget l k := by
  rw [dget_append]
  rcases hy : dget l k with _ | v0
  · dsimp only
    rw [dget_singleton]
    by_cases hc : k = k0
    · subst hc
      simp
    · rw [if_neg (fun hh => hc hh.symm), if_neg hc]
  · dsimp only
    by_cases hc : k = k0
    · subst hc
      rw [hfresh] at hy
      exact Option.noConfusion hy
    · rw [if_neg hc]

theorem isSome_mem_dkeys [DecidableEq κ] (l : List (κ × α)) (k : κ)
    (h : (dget l k).isSome = true) : k ∈ dkeys l := by
  rcases hx : dget l k with _ | v
  · rw [hx] at h
    exact Bool.noConfusion h
  · exact dget_some_mem_keys _ _ _ hx

theorem wf_init : WF {} := by
  have hL : ∀ cid : Nat, dget ({} : RState).optionLists cid =
      if 0 = cid then some [] else Option.none := fun _ => rfl
  have hO : ∀ id : Nat, dget ({} : RState).opts id = Option.none := fun _ => rfl
  have hS : ∀ s : String, dget ({} : RState).shortTable s = Option.none := fun _ => rfl
  have hLg : ∀ s : String, dget ({} : RState).longTable s = Option.none := fun _ => rfl
  have hC : ∀ id : Nat, dget ({} : RState).containerOf id = Option.none := fun _ => rfl
  refine ⟨?_, ?_, ?_, ?_, ?_, ?_, ?_, ?_, ?_, ?_, ?_, ?_, ?_, ?_, ?_, ?_, ?_, ?_, ?_, ?_⟩
  · exact List.nodup_nil
  · exact List.nodup_nil
  · exact List.nodup_nil
  · exact List.nodup_singleton 0
  · intro cid l hl
    rw [hL] at hl
    by_cases h0 : 0 = cid
    · rw [if_pos h0] at hl
      injection hl with hl
      subst hl
      exact List.nodup_nil
    · rw [if_neg h0] at hl
      exact Option.noConfusion hl
  · intro s id hs
    rw [hS] at hs
    exact Option.noConfusion hs
  · intro s id hs
    rw [hLg] at hs
    exact Option.noConfusion hs
  · intro id spec hsp
    rw [hO] at hsp
    exact Option.noConfusion hsp
  · intro id spec hsp
    rw [hO] at hsp
    exact Option.noConfusion hsp
  · intro id spec hsp
    rw [hO] at hsp
    exact Option.noConfusion hsp
  · intro id spec hsp
    rw [hO] at hsp
    exact Option.noConfusion hsp
  · intro id hex
    rcases hex with ⟨s, hs⟩ | ⟨s, hs⟩
    · rw [hS] at hs
      exact Option.noConfusion hs
    · rw [hLg] at hs
      exact Option.noConfusion hs
  · intro id cid l hl hm
    rw [hL] at hl
    by_cases h0 : 0 = cid
    · rw [if_pos h0] at hl
      injection hl with hl
      subst hl
      exact absurd hm (List.not_mem_nil id)
    · rw [if_neg h0] at hl
      exact Option.noConfusion hl
  · intro id cid hc
    rw [hC] at hc
    exact Option.noConfusion hc
  · intro id spec hsp
    rw [hO] at hsp
    exact Option.noConfusion hsp
  · intro id hm
    exact absurd hm (List.not_mem_nil id)
  · intro s id hs
    rw [hS] at hs
    exact Option.noConfusion hs
  · intro s id hs
    rw [hLg] at hs
    exact Option.noConfusion hs
  · intro cid l hl id hm
    rw [hL] at hl
    by_cases h0 : 0 = cid
    · rw [if_pos h0] at hl
      injection hl with hl
      subst hl
      exact absurd hm (List.not_mem_nil id)
    · rw [if_neg h0] at hl
      exact Option.noConfusion hl
  · intro cid hm
    have h0 : cid = 0 := by
      simpa [dkeys] using hm
    subst h0
    exact Nat.one_pos

theorem group_lists (st : RState) :
    (add_option_group st).1.optionLists = st.optionLists ++ [(st.nextCid, [])] := rfl

theorem group_ncid (st : RState) :
    (add_option_group st).1.nextCid = st.nextCid + 1 := rfl

theorem wf_newGroup (st : RState) (h : WF st) : WF (add_option_group st).1 := by
  have hL : ∀ c2, dget (add_option_group st).1.optionLists c2 =
      if c2 = st.nextCid then some [] else dget st.optionLists c2 := by
    intro c2
    rw [group_lists]
    refine dget_append_singleton _ _ _ _ ?_
    rcases hy : dget st.optionLists st.nextCid with _ | l0
    · rfl
    · exact absurd (h.freshCids _ (dget_some_mem_keys _ _ _ hy)) (lt_irrefl _)
  refine ⟨h.shortNodup, h.longNodup, h.optsNodup, ?_, ?_, h.shortKeys, h.longKeys,
    h.specShortNodup, h.specLongNodup, h.specShortForm, h.specLongForm,
    ?_, ?_, ?_, ?_, h.freshOpts, h.freshShort, h.freshLong, ?_, ?_⟩
  · rw [group_lists, dkeys_append]
    refine List.Nodup.append h.listsNodup (by simp [dkeys]) ?_
    intro a ha hb
    simp [dkeys] at hb
    subst hb
    exact absurd (h.freshCids _ ha) (lt_irrefl _)
  · intro cid l hl
    rw [hL] at hl
    by_cases hc : cid = st.nextCid
    · rw [if_pos hc] at hl
      injection hl with hl
      subst hl
      exact List.nodup_nil
    · rw [if_neg hc] at hl
      exact h.listNodup cid l hl
  · intro id hex
    obtain ⟨cid0, l0, hc0, hl0, hm0⟩ := h.tablesInList id hex
    have hcc : cid0 ≠ st.nextCid := by
      intro hcc
      subst hcc
      exact absurd (h.freshCids _ (dget_some_mem_keys _ _ _ hl0)) (lt_irrefl _)
    refine ⟨cid0, l0, hc0, ?_, hm0⟩
    rw [hL, if_neg hcc]
    exact hl0
  · intro id cid l hl hm
    rw [hL] at hl
    by_cases hc : cid = st.nextCid
    · rw [if_pos hc] at hl
      injection hl with hl
      subst hl
      exact absurd hm (List.not_mem_nil id)
    · rw [if_neg hc] at hl
      exact h.listedCont id cid l hl hm
  · intro id cid hc
    rw [group_lists, dkeys_append]
    exact List.mem_append_left _ (h.contValid id cid hc)
  · intro id spec hsp hse hle cid l hl hm
    rw [hL] at hl
    by_cases hc : cid = st.nextCid
    · rw [if_pos hc] at hl
      injection hl with hl
      subst hl
      exact absurd hm (List.not_mem_nil id)
    · rw [if_neg hc] at hl
      exact h.noGhost id spec hsp hse hle cid l hl hm
  · intro cid l hl id hm
    rw [hL] at hl
    by_cases hc : cid = st.nextCid
    · rw [if_pos hc] at hl
      injection hl with hl
      subst hl
      exact absurd hm (List.not_mem_nil id)
    · rw [if_neg hc] at hl
      exact h.freshLists cid l hl id hm
  · intro cid hm
    rw [group_lists, dkeys_append] at hm
    rw [group_ncid]
    rcases List.mem_append.mp hm with hm1 | hm1
    · exact Nat.lt_succ_of_lt (h.freshCids cid hm1)
    · simp [dkeys] at hm1
      subst hm1
      exact Nat.lt_succ_self _

theorem removed_short (st : RState) (id : Nat) (spec : OptSpec) (cid : Nat) :
    (removedState st id spec cid).shortTable =
      spec.shortOpts.foldl (fun t s => derase t s) st.shortTable := rfl

theorem removed_long (st : RState) (id : Nat) (spec : OptSpec) (cid : Nat) :
    (removedState st id spec cid).longTable =
      spec.longOpts.foldl (fun t s => derase t s) st.longTable := rfl

theorem removed_lists (st : RState) (id : Nat) (spec : OptSpec) (cid : Nat) :
    (removedState st id spec cid).optionLists =
      dset st.optionLists cid (((dget st.optionLists cid).getD []).erase id) := rfl

theorem remove_ok_inv (st : RState) (optStr : String) (st2 : RState)
    (hok : remove_option st optStr = .ok st2) :
    ∃ id spec cid,
      dget st.opts id = some spec ∧
      dget st.containerOf id = some cid ∧
      (dget st.shortTable optStr = some id ∨ dget st.longTable optStr = some id) ∧
      st2 = removedState st id spec cid := by
  unfold remove_option at hok
  rcases hs : dget st.shortTable optStr with _ | id0
  · rw [hs] at hok
    dsimp only at hok
    rcases hlg : dget st.longTable optStr with _ | id0
    · rw [hlg] at hok
      exact Except.noConfusion hok
    · rw [hlg] at hok
      dsimp only at hok
      rcases hop : dget st.opts id0 with _ | spec
      · rw [hop] at hok
        exact Except.noConfusion hok
      · rw [hop] at hok
        dsimp only at hok
        rcases hc : dget st.containerOf id0 with _ | cid
        · rw [hc] at hok
          exact Except.noConfusion hok
        · rw [hc] at hok
          dsimp only at hok
          injection hok with hok
          exact ⟨id0, spec, cid, hop, hc, Or.inr rfl, hok.symm⟩
  · rw [hs] at hok
    dsimp only at hok
    rcases hop : dget st.opts id0 with _ | spec
    · rw [hop] at hok
      exact Except.noConfusion hok
    · rw [hop] at hok
      dsimp only at hok
      rcases hc : dget st.containerOf id0 with _ | cid
      · rw [hc] at hok
        exact Except.noConfusion hok
      · rw [hc] at hok
        dsimp only at hok
        injection hok with hok
        exact ⟨id0, spec, cid, hop, hc, Or.inl rfl, hok.symm⟩

theorem wf_removedState (st : RState) (id : Nat) (spec : OptSpec) (cid : Nat)
    (h : WF st) (hop : dget st.opts id = some spec)
    (hc : dget st.containerOf id = some cid) :
    WF (removedState st id spec cid) := by
  have hshort2 : ∀ x, dget (removedState st id spec cid).shortTable x =
      if x ∈ spec.shortOpts then Option.none else dget st.shortTable x := by
    intro x
    rw [removed_short]
    exact dget_fold_derase _ _ _ h.shortNodup
  have hlong2 : ∀ x, dget (removedState st id spec cid).longTable x =
      if x ∈ spec.longOpts then Option.none else dget st.longTable x := by
    intro x
    rw [removed_long]
    exact dget_fold_derase _ _ _ h.longNodup
  have hlists2 : ∀ c2, dget (removedState st id spec cid).optionLists c2 =
      if c2 = cid then some (((dget st.optionLists cid).getD []).erase id)
      else dget st.optionLists c2 := by
    intro c2
    rw [removed_lists]
    by_cases hcc : c2 = cid
    · subst hcc
      rw [if_pos rfl, dget_dset_self]
    · rw [if_neg hcc, dget_dset_ne _ _ _ _ hcc]
  refine ⟨?_, ?_, h.optsNodup, ?_, ?_, ?_, ?_,
    h.specShortNodup, h.specLongNodup, h.specShortForm, h.specLongForm,
    ?_, ?_, ?_, ?_, h.freshOpts, ?_, ?_, ?_, ?_⟩
  · rw [removed_short]
    exact fold_derase_keys_nodup _ _ h.shortNodup
  · rw [removed_long]
    exact fold_derase_keys_nodup _ _ h.longNodup
  · rw [removed_lists]
    exact dset_keys_nodup _ _ _ h.listsNodup
  · intro c2 l hl
    rw [hlists2] at hl
    by_cases hcc : c2 = cid
    · rw [if_pos hcc] at hl
      injection hl with hl
      subst hl
      rcases hx : dget st.optionLists cid with _ | l0
      · simp
      · simp only [Option.getD_some]
        exact (h.listNodup cid l0 hx).erase _
    · rw [if_neg hcc] at hl
      exact h.listNodup c2 l hl
  · intro x id2 hx
    rw [hshort2] at hx
    by_cases hm : x ∈ spec.shortOpts
    · rw [if_pos hm] at hx
      exact Option.noConfusion hx
    · rw [if_neg hm] at hx
      exact h.shortKeys x id2 hx
  · intro x id2 hx
    rw [hlong2] at hx
    by_cases hm : x ∈ spec.longOpts
    · rw [if_pos hm] at hx
      exact Option.noConfusion hx
    · rw [if_neg hm] at hx
      exact h.longKeys x id2 hx
  · intro id2 hex
    have main : id2 ≠ id →
        ((∃ s, dget st.shortTable s = some id2) ∨ (∃ s, dget st.longTable s = some id2)) →
        ∃ cid0 l, dget (removedState st id spec cid).containerOf id2 = some cid0 ∧
          dget (removedState st id spec cid).optionLists cid0 = some l ∧ id2 ∈ l := by
      intro hne2 hex1
      obtain ⟨cid0, l0, hc0, hl0, hm0⟩ := h.tablesInList id2 hex1
      by_cases hcc : cid0 = cid
      · subst hcc
        refine ⟨cid0, ((dget st.optionLists cid0).getD []).erase id, hc0, ?_, ?_⟩
        · rw [hlists2, if_pos rfl]
        · rw [hl0]
          simp only [Option.getD_some]
          exact (List.mem_erase_of_ne hne2).mpr hm0
      · refine ⟨cid0, l0, hc0, ?_, hm0⟩
        rw [hlists2, if_neg hcc]
        exact hl0
    rcases hex with ⟨x, hx⟩ | ⟨x, hx⟩
    · rw [hshort2] at hx
      by_cases hm : x ∈ spec.shortOpts
      · rw [if_pos hm] at hx
        exact Option.noConfusion hx
      · rw [if_neg hm] at hx
        refine main ?_ (Or.inl ⟨x, hx⟩)
        intro he
        subst he
        obtain ⟨spec2, hsp2, hmem2⟩ := h.shortKeys x id2 hx
        rw [hop] at hsp2
        injection hsp2 with hsp2
        subst hsp2
        exact hm hmem2
    · rw [hlong2] at hx
      by_cases hm : x ∈ spec.longOpts
      · rw [if_pos hm] at hx
        exact Option.noConfusion hx
      · rw [if_neg hm] at hx
        refine main ?_ (Or.inr ⟨x, hx⟩)
        intro he
        subst he
        obtain ⟨spec2, hsp2, hmem2⟩ := h.longKeys x id2 hx
        rw [hop] at hsp2
        injection hsp2 with hsp2
        subst hsp2
        exact hm hmem2
  · intro id2 c2 l hl hm
    rw [hlists2] at hl
    by_cases hcc : c2 = cid
    · rw [if_pos hcc] at hl
      injection hl with hl
      subst hl
      have hm2 : id2 ∈ (dget st.optionLists cid).getD [] := List.erase_subset _ _ hm
      rcases hx : dget st.optionLists cid with _ | l0
      · rw [hx] at hm2
        simp at hm2
      · rw [hx] at hm2
        simp only [Option.getD_some] at hm2
        rw [hcc]
        exact h.listedCont id2 cid l0 hx hm2
    · rw [if_neg hcc] at hl
      exact h.listedCont id2 c2 l hl hm
  · intro id2 c2 hc2
    rw [removed_lists]
    exact mem_dkeys_dset_of_mem _ _ _ _ (h.contValid id2 c2 hc2)
  · intro id2 spec2 hsp hse hle c2 l hl hm
    rw [hlists2] at hl
    by_cases hcc : c2 = cid
    · rw [if_pos hcc] at hl
      injection hl with hl
      subst hl
      have hm2 : id2 ∈ (dget st.optionLists cid).getD [] := List.erase_subset _ _ hm
      rcases hx : dget st.optionLists cid with _ | l0
      · rw [hx] at hm2
        simp at hm2
      · rw [hx] at hm2
        simp only [Option.getD_some] at hm2
        exact h.noGhost id2 spec2 hsp hse hle cid l0 hx hm2
    · rw [if_neg hcc] at hl
      exact h.noGhost id2 spec2 hsp hse hle c2 l hl hm
  · intro x id2 hx
    rw [hshort2] at hx
    by_cases hm : x ∈ spec.shortOpts
    · rw [if_pos hm] at hx
      exact Option.noConfusion hx
    · rw [if_neg hm] at hx
      exact h.freshShort x id2 hx
  · intro x id2 hx
    rw [hlong2] at hx
    by_cases hm : x ∈ spec.longOpts
    · rw [if_pos hm] at hx
      exact Option.noConfusion hx
    · rw [if_neg hm] at hx
      exact h.freshLong x id2 hx
  · intro c2 l hl id2 hm
    rw [hlists2] at hl
    by_cases hcc : c2 = cid
    · rw [if_pos hcc] at hl
      injection hl with hl
      subst hl
      have hm2 : id2 ∈ (dget st.optionLists cid).getD [] := List.erase_subset _ _ hm
      rcases hx : dget st.optionLists cid with _ | l0
      · rw [hx] at hm2
        simp at hm2
      · rw [hx] at hm2
        simp only [Option.getD_some] at hm2
        exact h.freshLists cid l0 hx id2 hm2
    · rw [if_neg hcc] at hl
      exact h.freshLists c2 l hl id2 hm
  · intro c2 hm2
    rw [removed_lists, dkeys_dset, if_pos (h.contValid id cid hc)] at hm2
    exact h.freshCids c2 hm2

theorem wf_remove (st : RState) (optStr : String) (st2 : RState)
    (h : WF st) (hok : remove_option st optStr = .ok st2) : WF st2 := by
  obtain ⟨id, spec, cid, hop, hc, _, hst⟩ := remove_ok_inv st optStr st2 hok
  subst hst
  exact wf_removedState st id spec cid h hop hc

theorem resolve_one_keys_mem (st : RState) (p : String × Nat) (cid : Nat)
    (h : cid ∈ dkeys st.optionLists) : cid ∈ dkeys (resolve_one st p).optionLists := by
  unfold resolve_one
  rcases hop : dget st.opts p.2 with _ | spec
  · exact h
  · dsimp only
    split
    · unfold dropFromList
      rcases hcc : dget (stripState st p.1 p.2 spec).containerOf p.2 with _ | cid1
      · exact h
      · exact mem_dkeys_dset_of_mem _ _ _ _ h
    · exact h

theorem fold_resolve_keys_mem (pairs : List (String × Nat)) (st : RState) (cid : Nat)
    (h : cid ∈ dkeys st.optionLists) :
    cid ∈ dkeys (pairs.foldl resolve_one st).optionLists := by
  induction pairs generalizing st with
  | nil => exact h
  | cons p ps ih => exact ih _ (resolve_one_keys_mem st p cid h)

/-- Every state reachable by building a parser, creating groups, registering
valid options under either conflict policy and removing options satisfies
the lookup-table invariant. -/
theorem reachable_wf (st : RState) (h : Reachable st) : WF st := by
  induction h with
  | init => exact wf_init
  | newGroup _ ih => exact wf_newGroup _ ih
  | add hr hcid hv hok ih =>
    unfold add_option at hok
    split at hok
    · exact Except.noConfusion hok
    · injection hok with hok
      subst hok
      rename_i stp handler cidp o _
      by_cases hh : handler = ConflictHandler.resolve
      · rw [if_pos hh]
        exact wf_add_option_tail _ cidp o (wf_fold_resolve _ _ ih) hv
          (fold_resolve_keys_mem _ _ _ (isSome_mem_dkeys _ _ hcid))
      · rw [if_neg hh]
        exact wf_add_option_tail _ cidp o ih hv (isSome_mem_dkeys _ _ hcid)
  | remove hr hok ih =>
    exact wf_remove _ _ _ ih hok

/-! ## The resolve fold: removal and retention of option strings -/

theorem resolve_opts_none (st1 : RState) (q : String × Nat)
    (hop : dget st1.opts q.2 = Option.none) : resolve_one st1 q = st1 := by
  unfold resolve_one
  rw [hop]

theorem resolve_opts_char (st1 : RState) (q : String × Nat) (spec0 : OptSpec)
    (hop : dget st1.opts q.2 = some spec0) (c : Nat) :
    dget (resolve_one st1 q).opts c =
      if c = q.2 then some (stripSpec q.1 spec0) else dget st1.opts c := by
  unfold resolve_one
  rw [hop]
  dsimp only
  split
  · unfold dropFromList
    rcases hcc : dget (stripState st1 q.1 q.2 spec0).containerOf q.2 with _ | cid1
    · exact strip_opts_dget st1 q.1 q.2 spec0 hop c
    · exact strip_opts_dget st1 q.1 q.2 spec0 hop c
  · exact strip_opts_dget st1 q.1 q.2 spec0 hop c

theorem resolve_one_gone (st1 : RState) (q : String × Nat) (h : WF st1)
    (hform : isShortStr q.1 = true ∨ isLongStr q.1 = true)
    (spec2 : OptSpec) (hsp : dget (resolve_one st1 q).opts q.2 = some spec2) :
    q.1 ∉ spec2.shortOpts ∧ q.1 ∉ spec2.longOpts := by
  rcases hop : dget st1.opts q.2 with _ | spec0
  · rw [resolve_opts_none st1 q hop, hop] at hsp
    exact Option.noConfusion hsp
  · rw [resolve_opts_char st1 q spec0 hop q.2, if_pos rfl] at hsp
    injection hsp with hsp
    subst hsp
    rcases hform with hf | hf
    · have hss : strStarts q.1 "--" = false := short_not_dashdash q.1 hf
      constructor
      · rw [stripSpec_shortOpts, hss]
        show q.1 ∉ spec0.shortOpts.erase q.1
        exact (h.specShortNodup q.2 spec0 hop).not_mem_erase
      · rw [stripSpec_longOpts, hss]
        show q.1 ∉ spec0.longOpts
        intro hmem
        exact short_long_exclusive q.1 hf (h.specLongForm q.2 spec0 hop q.1 hmem)
    · have hss : strStarts q.1 "--" = true := long_dashdash q.1 hf
      constructor
      · rw [stripSpec_shortOpts, hss]
        show q.1 ∉ spec0.shortOpts
        intro hmem
        exact short_long_exclusive q.1 (h.specShortForm q.2 spec0 hop q.1 hmem) hf
      · rw [stripSpec_longOpts, hss]
        show q.1 ∉ spec0.longOpts.erase q.1
        exact (h.specLongNodup q.2 spec0 hop).not_mem_erase

theorem resolve_one_gone_mono (st1 : RState) (p : String × Nat) (c : Nat) (s : String)
    (hg : ∀ spec1, dget st1.opts c = some spec1 → s ∉ spec1.shortOpts ∧ s ∉ spec1.longOpts)
    (spec2 : OptSpec) (hsp : dget (resolve_one st1 p).opts c = some spec2) :
    s ∉ spec2.shortOpts ∧ s ∉ spec2.longOpts := by
  rcases hop : dget st1.opts p.2 with _ | spec0
  · rw [resolve_opts_none st1 p hop] at hsp
    exact hg spec2 hsp
  · rw [resolve_opts_char st1 p spec0 hop c] at hsp
    by_cases hc : c = p.2
    · rw [if_pos hc] at hsp
      injection hsp with hsp
      subst hsp
      subst hc
      obtain ⟨hgs, hgl⟩ := hg spec0 hop
      constructor
      · rw [stripSpec_shortOpts]
        split
        · exact hgs
        · intro hmem
          exact hgs (List.erase_subset _ _ hmem)
      · rw [stripSpec_longOpts]
        split
        · intro hmem
          exact hgl (List.erase_subset _ _ hmem)
        · exact hgl
    · rw [if_neg hc] at hsp
      exact hg spec2 hsp

theorem fold_gone_mono (pairs : List (String × Nat)) (st1 : RState) (c : Nat) (s : String)
    (hg : ∀ spec1, dget st1.opts c = some spec1 → s ∉ spec1.shortOpts ∧ s ∉ spec1.longOpts) :
    ∀ spec2, dget (pairs.foldl resolve_one st1).opts c = some spec2 →
      s ∉ spec2.shortOpts ∧ s ∉ spec2.longOpts := by
  induction pairs generalizing st1 with
  | nil => exact hg
  | cons p ps ih =>
    exact ih _ (fun spec1 hsp => resolve_one_gone_mono st1 p c s hg spec1 hsp)

theorem gone_after_fold (pairs : List (String × Nat)) (st1 : RState) (h : WF st1)
    (hall : ∀ p ∈ pairs, isShortStr p.1 = true ∨ isLongStr p.1 = true) :
    ∀ p ∈ pairs, ∀ spec2, dget (pairs.foldl resolve_one st1).opts p.2 = some spec2 →
      p.1 ∉ spec2.shortOpts ∧ p.1 ∉ spec2.longOpts := by
  induction pairs generalizing st1 with
  | nil =>
    intro p hp
    exact absurd hp (List.not_mem_nil p)
  | cons q ps ih =>
    intro p hp spec2 hsp
    rw [List.foldl_cons] at hsp
    rcases List.mem_cons.mp hp with hp1 | hp1
    · subst hp1
      refine fold_gone_mono ps (resolve_one st1 p) p.2 p.1 ?_ spec2 hsp
      intro spec1 hsp1
      exact resolve_one_gone st1 p h (hall p (List.mem_cons_self p ps)) spec1 hsp1
    · exact ih (resolve_one st1 q) (wf_resolve_one st1 q h)
        (fun r hr => hall r (List.mem_cons_of_mem q hr)) p hp1 spec2 hsp

theorem resolve_one_keep (st1 : RState) (p : String × Nat) (c : Nat) (x : String)
    (hx : x ≠ p.1) (spec2 : OptSpec) (hsp : dget (resolve_one st1 p).opts c = some spec2) :
    ∃ spec1, dget st1.opts c = some spec1 ∧
      (x ∈ spec1.shortOpts → x ∈ spec2.shortOpts) ∧
      (x ∈ spec1.longOpts → x ∈ spec2.longOpts) := by
  rcases hop : dget st1.opts p.2 with _ | spec0
  · rw [resolve_opts_none st1 p hop] at hsp
    exact ⟨spec2, hsp, id, id⟩
  · rw [resolve_opts_char st1 p spec0 hop c] at hsp
    by_cases hc : c = p.2
    · rw [if_pos hc] at hsp
      injection hsp with hsp
      subst hsp
      subst hc
      refine ⟨spec0, hop, ?_, ?_⟩
      · rw [stripSpec_shortOpts]
        split
        · exact id
        · exact fun hm => (List.mem_erase_of_ne hx).mpr hm
      · rw [stripSpec_longOpts]
        split
        · exact fun hm => (List.mem_erase_of_ne hx).mpr hm
        · exact id
    · rw [if_neg hc] at hsp
      exact ⟨spec2, hsp, id, id⟩

theorem fold_keep (pairs : List (String × Nat)) (st1 : RState) (c : Nat) (x : String)
    (hx : ∀ p ∈ pairs, x ≠ p.1) (spec2 : OptSpec)
    (hsp : dget (pairs.foldl resolve_one st1).opts c = some spec2) :
    ∃ spec1, dget st1.opts c = some spec1 ∧
      (x ∈ spec1.shortOpts → x ∈ spec2.shortOpts) ∧
      (x ∈ spec1.longOpts → x ∈ spec2.longOpts) := by
  induction pairs generalizing st1 with
  | nil => exact ⟨spec2, hsp, id, id⟩
  | cons p ps ih =>
    rw [List.foldl_cons] at hsp
    obtain ⟨spec1, hs1, hks, hkl⟩ :=
      ih (resolve_one st1 p) (fun r hr => hx r (List.mem_cons_of_mem p hr)) hsp
    obtain ⟨spec00, hs0, hks0, hkl0⟩ :=
      resolve_one_keep st1 p c x (hx p (List.mem_cons_self p ps)) spec1 hs1
    exact ⟨spec00, hs0, fun hm => hks (hks0 hm), fun hm => hkl (hkl0 hm)⟩

theorem conflictPairs_mem (st : RState) (o : OptSpec) (p : String × Nat)
    (hp : p ∈ conflictPairs st o) :
    (p.1 ∈ o.shortOpts ∧ dget st.shortTable p.1 = some p.2) ∨
    (p.1 ∈ o.longOpts ∧ dget st.longTable p.1 = some p.2) := by
  unfold conflictPairs at hp
  rcases List.mem_append.mp hp with hm | hm
  · left
    obtain ⟨s, hs, hmap⟩ := List.mem_filterMap.mp hm
    rcases hx : dget st.shortTable s with _ | id
    · rw [hx] at hmap
      exact Option.noConfusion hmap
    · rw [hx] at hmap
      have hmap2 : (s, id) = p := by
        simpa using hmap
      subst hmap2
      exact ⟨hs, hx⟩
  · right
    obtain ⟨s, hs, hmap⟩ := List.mem_filterMap.mp hm
    rcases hx : dget st.longTable s with _ | id
    · rw [hx] at hmap
      exact Option.noConfusion hmap
    · rw [hx] at hmap
      have hmap2 : (s, id) = p := by
        simpa using hmap
      subst hmap2
      exact ⟨hs, hx⟩

theorem add_tail_opts_old (st1 : RState) (cid : Nat) (o : OptSpec) (c : Nat)
    (hne : c ≠ st1.nextId) :
    dget (add_option_tail st1 cid o).opts c = dget st1.opts c := by
  rw [add_tail_opts, dget_append]
  rcases hx : dget st1.opts c with _ | v
  · dsimp only
    rw [dget_singleton, if_neg (fun hh => hne hh.symm)]
  · dsimp only

theorem reach_stX1 : Reachable stX1 :=
  @Reachable.add {} stX1 ConflictHandler.error 0 optEx Reachable.init
    (by decide) (by decide) (by rfl)

/-- C8: on any reachable parser state, registering a valid option whose
strings collide with already-registered live options fails under the
`error` conflict policy with an `OptionConflictError` naming the colliding
strings, while under the `resolve` policy registration succeeds and in the
resulting state (1) the new option is registered under the fresh identity
and every one of its strings maps to it in the shared tables, (2) every
earlier owner of a colliding string has lost that string from its own
record, (3) a string of an earlier owner that collides with nothing is
kept, and (4) an earlier owner left with no strings sits in no
option list of any container. -/
theorem conflict_handling (st : RState) (h : Reachable st) (cid : Nat) (o : OptSpec)
    (hcid : (dget st.optionLists cid).isSome = true) (hv : validSpec o = true)
    (hconf : (conflictPairs st o).isEmpty = false) :
    add_option st .error cid o =
      .error (.conflict ((conflictPairs st o).map Prod.fst) o) ∧
    ∃ st2, add_option st .resolve cid o = .ok st2 ∧
      dget st2.opts st.nextId = some o ∧
      (∀ s ∈ o.shortOpts, dget st2.shortTable s = some st.nextId) ∧
      (∀ s ∈ o.longOpts, dget st2.longTable s = some st.nextId) ∧
      (∀ p ∈ conflictPairs st o, ∀ spec2, dget st2.opts p.2 = some spec2 →
        p.1 ∉ spec2.shortOpts ∧ p.1 ∉ spec2.longOpts) ∧
      (∀ p ∈ conflictPairs st o, ∀ x, (∀ q ∈ conflictPairs st o, x ≠ q.1) →
        ∀ spec2, dget st2.opts p.2 = some spec2 →
        ∃ spec1, dget st.opts p.2 = some spec1 ∧
          (x ∈ spec1.shortOpts → x ∈ spec2.shortOpts) ∧
          (x ∈ spec1.longOpts → x ∈ spec2.longOpts)) ∧
      (∀ p ∈ conflictPairs st o, ∀ spec2, dget st2.opts p.2 = some spec2 →
        spec2.shortOpts = [] → spec2.longOpts = [] →
        ∀ cid2 l, dget st2.optionLists cid2 = some l → p.2 ∉ l) := by
  have hwf := reachable_wf st h
  obtain ⟨hsf, hlf, _, _, _⟩ := validSpec_parts o hv
  have hpair : ∀ p ∈ conflictPairs st o,
      (isShortStr p.1 = true ∨ isLongStr p.1 = true) ∧ p.2 < st.nextId := by
    intro p hp
    rcases conflictPairs_mem st o p hp with ⟨hmo, hts⟩ | ⟨hmo, hts⟩
    · exact ⟨Or.inl (hsf p.1 hmo), hwf.freshShort p.1 p.2 hts⟩
    · exact ⟨Or.inr (hlf p.1 hmo), hwf.freshLong p.1 p.2 hts⟩
  have hok : add_option st .resolve cid o =
      .ok (add_option_tail ((conflictPairs st o).foldl resolve_one st) cid o) := by
    unfold add_option
    rw [if_neg (fun hcontra => ConflictHandler.noConfusion hcontra.2), if_pos rfl]
  have hreach2 : Reachable (add_option_tail ((conflictPairs st o).foldl resolve_one st) cid o) :=
    Reachable.add h hcid hv hok
  have hwf2 := reachable_wf _ hreach2
  have hnm : ((conflictPairs st o).foldl resolve_one st).nextId = st.nextId :=
    fold_resolve_nextId _ _
  have hmidwf : WF ((conflictPairs st o).foldl resolve_one st) := wf_fold_resolve _ _ hwf
  have hold : ∀ c : Nat, c ≠ st.nextId →
      dget (add_option_tail ((conflictPairs st o).foldl resolve_one st) cid o).opts c =
      dget ((conflictPairs st o).foldl resolve_one st).opts c := by
    intro c hc
    refine add_tail_opts_old _ cid o c ?_
    rw [hnm]
    exact hc
  refine ⟨?_, add_option_tail ((conflictPairs st o).foldl resolve_one st) cid o,
    hok, ?_, ?_, ?_, ?_, ?_, ?_⟩
  · unfold add_option
    rw [if_pos ⟨hconf, rfl⟩]
  · have hz : dget ((conflictPairs st o).foldl resolve_one st).opts st.nextId =
        Option.none := by
      rw [← hnm]
      exact fresh_no_opts _ hmidwf
    rw [add_tail_opts, dget_append, hz]
    dsimp only
    rw [dget_singleton, hnm, if_pos rfl]
  · intro s hs
    rw [add_tail_short, dget_fold_dset, if_pos hs, hnm]
  · intro s hs
    rw [add_tail_long, dget_fold_dset, if_pos hs, hnm]
  · intro p hp spec2 hsp
    rw [hold p.2 (Nat.ne_of_lt (hpair p hp).2)] at hsp
    exact gone_after_fold (conflictPairs st o) st hwf
      (fun q hq => (hpair q hq).1) p hp spec2 hsp
  · intro p hp x hx spec2 hsp
    rw [hold p.2 (Nat.ne_of_lt (hpair p hp).2)] at hsp
    exact fold_keep (conflictPairs st o) st p.2 x hx spec2 hsp
  · intro p hp spec2 hsp hse hle cid2 l hl
    exact hwf2.noGhost p.2 spec2 hsp hse hle cid2 l hl

/-- Witness for C8 at a concrete state: `optEx` owns `-x`; registering
`optWhy` (which also declares `-x`) on container 0 under the `error` policy
fails with the conflict error naming `-x`. -/
theorem conflict_handling_witness :
    (dget stX1.optionLists 0).isSome = true ∧
    validSpec optWhy = true ∧
    (conflictPairs stX1 optWhy).isEmpty = false ∧
    add_option stX1 .error 0 optWhy =
      .error (.conflict ((conflictPairs stX1 optWhy).map Prod.fst) optWhy) :=
  ⟨by decide, by decide, by decide,
    (conflict_handling stX1 reach_stX1 0 optWhy (by decide) (by decide) (by decide)).1⟩

/-- C10: on every reachable parser state, every key of the shared short
table belongs to the short list of the option record it maps to, every key
of the long table to its long list, every option reachable from a table
sits in exactly the option list of its recorded container, and a
successful `remove_option` locates the owning option through the supplied
string (a table entry for that string, which is one of the strings the
record declares) and deletes all strings of that located option from both
shared tables. -/
theorem lookup_table_consistency (st : RState) (h : Reachable st) :
    (∀ s id, dget st.shortTable s = some id →
      ∃ spec, dget st.opts id = some spec ∧ s ∈ spec.shortOpts) ∧
    (∀ s id, dget st.longTable s = some id →
      ∃ spec, dget st.opts id = some spec ∧ s ∈ spec.longOpts) ∧
    (∀ id, ((∃ s, dget st.shortTable s = some id) ∨
        (∃ s, dget st.longTable s = some id)) →
      ∃ cid l, dget st.containerOf id = some cid ∧ dget st.optionLists cid = some l ∧
        id ∈ l ∧ ∀ cid2 l2, dget st.optionLists cid2 = some l2 → id ∈ l2 → cid2 = cid) ∧
    (∀ optStr st2, remove_option st optStr = .ok st2 →
      ∃ id spec,
        (dget st.shortTable optStr = some id ∨ dget st.longTable optStr = some id) ∧
        dget st.opts id = some spec ∧
        (optStr ∈ spec.shortOpts ∨ optStr ∈ spec.longOpts) ∧
        (∀ x ∈ spec.shortOpts, dget st2.shortTable x = Option.none) ∧
        (∀ x ∈ spec.longOpts, dget st2.longTable x = Option.none)) := by
  have hwf := reachable_wf st h
  refine ⟨hwf.shortKeys, hwf.longKeys, ?_, ?_⟩
  · intro id hex
    obtain ⟨cid, l, hc, hl, hm⟩ := hwf.tablesInList id hex
    refine ⟨cid, l, hc, hl, hm, ?_⟩
    intro cid2 l2 hl2 hm2
    have hcc := hwf.listedCont id cid2 l2 hl2 hm2
    rw [hc] at hcc
    injection hcc with hcc
    exact hcc.symm
  · intro optStr st2 hok
    obtain ⟨id, spec, cid, hop, hc, htab, hst⟩ := remove_ok_inv st optStr st2 hok
    subst hst
    have hmem : optStr ∈ spec.shortOpts ∨ optStr ∈ spec.longOpts := by
      rcases htab with ht | ht
      · obtain ⟨spec2, hsp2, hm2⟩ := hwf.shortKeys optStr id ht
        rw [hop] at hsp2
        injection hsp2 with hsp2
        subst hsp2
        exact Or.inl hm2
      · obtain ⟨spec2, hsp2, hm2⟩ := hwf.longKeys optStr id ht
        rw [hop] at hsp2
        injection hsp2 with hsp2
        subst hsp2
        exact Or.inr hm2
    refine ⟨id, spec, htab, hop, hmem, ?_, ?_⟩
    · intro x hx
      rw [removed_short, dget_fold_derase _ _ _ hwf.shortNodup, if_pos hx]
    · intro x hx
      rw [removed_long, dget_fold_derase _ _ _ hwf.longNodup, if_pos hx]

/-- Witness for C10 on the concrete reachable state `stX1`: the short
table entry for `-x` leads to an option record that really declares `-x`,
and removing by `-x` (whose result state is `removedState stX1 0 optEx 0`)
locates that record through the table and clears all of its strings
(`-x` and `--ex`) from both shared tables. -/
theorem lookup_table_consistency_witness :
    (∃ spec, dget stX1.opts 0 = some spec ∧ "-x" ∈ spec.shortOpts) ∧
    (∃ id spec,
      (dget stX1.shortTable "-x" = some id ∨ dget stX1.longTable "-x" = some id) ∧
      dget stX1.opts id = some spec ∧
      ("-x" ∈ spec.shortOpts ∨ "-x" ∈ spec.longOpts) ∧
      (∀ x ∈ spec.shortOpts, dget (removedState stX1 0 optEx 0).shortTable x = Option.none) ∧
      (∀ x ∈ spec.longOpts, dget (removedState stX1 0 optEx 0).longTable x = Option.none)) :=
  ⟨(lookup_table_consistency stX1 reach_stX1).1 "-x" 0 (by decide),
   (lookup_table_consistency stX1 reach_stX1).2.2.2 "-x"
     (removedState stX1 0 optEx 0) (by rfl)⟩

end Cleo
